import Mathlib

/-!
# nvbios power tables: directory resolver, directory walk, BOOST and CSTEP decoders

A shallow embedding of `nvbios/power.c`.  C out-parameters become explicit
"old value in, new value out" pairs, the `uint16_t *ptr` column of the slot
tables becomes a field selector, and C arrays become lists that are written
index by index.  Integer fields are naturals; truncation to `uint16_t` is an
explicit `% 65536`.
-/

namespace NvbiosPower

/-! ## Error codes (`<errno.h>`) -/

def EINVAL : Int := 22
def ENOENT : Int := 2
def EFAULT : Int := 14

/-! ## Data model (`bios.h`, only the fields that `power.c` touches) -/

structure envy_bios_bit_entry where
  offset : Nat
  version : Nat
  t_offset : Nat
  t_len : Nat
deriving DecidableEq, Inhabited

/-- The sub-tables whose decoders live elsewhere: `power.c` only stores their
directory slot value in `offset`. -/
structure envy_bios_power_subtable where
  offset : Nat
deriving DecidableEq, Inhabited

structure envy_bios_power_boost_subentry where
  offset : Nat
  domain : Nat
  percent : Nat
  min : Nat
  max : Nat
deriving DecidableEq, Inhabited

structure envy_bios_power_boost_entry where
  offset : Nat
  pstate : Nat
  min : Nat
  max : Nat
  entries : List envy_bios_power_boost_subentry
deriving DecidableEq, Inhabited

structure envy_bios_power_boost where
  offset : Nat
  valid : Nat
  version : Nat
  hlen : Nat
  entriesnum : Nat
  rlen : Nat
  ssz : Nat
  snr : Nat
  entries : List envy_bios_power_boost_entry
deriving DecidableEq, Inhabited

structure envy_bios_power_cstep_entry1 where
  offset : Nat
  pstate : Nat
  index : Nat
deriving DecidableEq, Inhabited

structure envy_bios_power_cstep_entry2 where
  offset : Nat
  freq : Nat
  unkn0 : Nat
  unkn1 : Nat
  voltage : Nat
  valid : Nat
deriving DecidableEq, Inhabited

structure envy_bios_power_cstep where
  offset : Nat
  valid : Nat
  version : Nat
  hlen : Nat
  rlen : Nat
  entriesnum : Nat
  ssz : Nat
  snr : Nat
  ent1 : List envy_bios_power_cstep_entry1
  ent2 : List envy_bios_power_cstep_entry2
deriving DecidableEq, Inhabited

/-- The power model `struct envy_bios_power`.  `bit` is the pointer to the BIT
entry of the directory: `none` is the null pointer. -/
structure envy_bios_power where
  bit : Option envy_bios_bit_entry
  perf : envy_bios_power_subtable
  timing : envy_bios_power_subtable
  therm : envy_bios_power_subtable
  volt : envy_bios_power_subtable
  unk : envy_bios_power_subtable
  timing_map : envy_bios_power_subtable
  volt_map : envy_bios_power_subtable
  boost : envy_bios_power_boost
  cstep : envy_bios_power_cstep
deriving DecidableEq, Inhabited

/-- The image and the model decoded from it (`struct envy_bios`): `data` holds
the bytes of the image, `data.length` is `bios->length`. -/
structure envy_bios where
  data : List Nat
  power : envy_bios_power
deriving DecidableEq, Inhabited

/-! ## Image accessor -/

/-- Modelled from the spec: the image accessor `bios_u8` of `bios.h`, which is
not part of the sources at hand.  A bounds-checked read of one byte at an
absolute offset, failing when `offs + 1` exceeds the image length.  The C
out-parameter is the pair "old value `res` in, new value out": a failed read
returns the failure code and leaves the destination as it was. -/
def bios_u8 (bios : envy_bios) (offs : Nat) (res : Nat) : Int × Nat :=
  if offs + 1 ≤ bios.data.length then (0, bios.data.getD offs 0 % 256)
  else (-EFAULT, res)

/-- Modelled from the spec: the image accessor `bios_u16` of `bios.h`, which is
not part of the sources at hand.  A bounds-checked little-endian read of two
bytes at an absolute offset, failing when `offs + 2` exceeds the image
length; a failed read leaves the destination as it was. -/
def bios_u16 (bios : envy_bios) (offs : Nat) (res : Nat) : Int × Nat :=
  if offs + 2 ≤ bios.data.length then
    (0, bios.data.getD offs 0 % 256 + 256 * (bios.data.getD (offs + 1) 0 % 256))
  else (-EFAULT, res)

/-! ## Directory resolver `parse_at` -/

/-- The targets of the `uint16_t *ptr` column of `struct P_known_tables`. -/
inductive P_ptr where
  | perf | timing | therm | volt | unk | timing_map | volt_map | boost | cstep
deriving DecidableEq, Inhabited

/-- Reading through a slot pointer: `*ptr`. -/
def P_ptr.get (power : envy_bios_power) : P_ptr → Nat
  | .perf => power.perf.offset
  | .timing => power.timing.offset
  | .therm => power.therm.offset
  | .volt => power.volt.offset
  | .unk => power.unk.offset
  | .timing_map => power.timing_map.offset
  | .volt_map => power.volt_map.offset
  | .boost => power.boost.offset
  | .cstep => power.cstep.offset

/-- Writing through a slot pointer: `*ptr = v`. -/
def P_ptr.set (power : envy_bios_power) (v : Nat) : P_ptr → envy_bios_power
  | .perf => { power with perf := { power.perf with offset := v } }
  | .timing => { power with timing := { power.timing with offset := v } }
  | .therm => { power with therm := { power.therm with offset := v } }
  | .volt => { power with volt := { power.volt with offset := v } }
  | .unk => { power with unk := { power.unk with offset := v } }
  | .timing_map => { power with timing_map := { power.timing_map with offset := v } }
  | .volt_map => { power with volt_map := { power.volt_map with offset := v } }
  | .boost => { power with boost := { power.boost with offset := v } }
  | .cstep => { power with cstep := { power.cstep with offset := v } }

structure P_known_tables where
  offset : Nat
  ptr : P_ptr
  name : String
deriving DecidableEq, Inhabited

def p1_tbls : List P_known_tables :=
  [ ⟨0x00, .perf, "PERFORMANCE"⟩,
    ⟨0x04, .timing, "MEMORY TIMINGS"⟩,
    ⟨0x0c, .therm, "THERMAL"⟩,
    ⟨0x10, .volt, "VOLTAGE"⟩,
    ⟨0x15, .unk, "UNK"⟩ ]

def p2_tbls : List P_known_tables :=
  [ ⟨0x00, .perf, "PERFORMANCE"⟩,
    ⟨0x04, .timing_map, "MEMORY TIMINGS MAPPING"⟩,
    ⟨0x08, .timing, "MEMORY TIMINGS"⟩,
    ⟨0x0c, .volt, "VOLTAGE"⟩,
    ⟨0x10, .therm, "THERMAL"⟩,
    ⟨0x18, .unk, "UNK"⟩,
    ⟨0x20, .volt_map, "VOLT MAPPING"⟩,
    ⟨0x30, .boost, "BOOST"⟩,
    ⟨0x34, .cstep, "CSTEP"⟩ ]

/-- What a call of `parse_at` leaves behind: the returned code, the power model,
the caller's `*name` (`none` when `name` is the null pointer) and the offsets
of the 16-bit image reads it performed. -/
structure parse_at_result where
  ret : Int
  power : envy_bios_power
  name : Option String
  reads : List Nat
deriving DecidableEq, Inhabited

/-- The scan `idx = 0; while (idx < entries_count && tbls[idx].offset != offset) idx++;`
of `parse_at`: the first index whose slot offset is `offset`, or the number of
entries when there is none. -/
def parse_at_scan : List P_known_tables → Int → Nat
  | [], _ => 0
  | t :: ts, offset => if (t.offset : Int) ≠ offset then parse_at_scan ts offset + 1 else 0

/-- The body of `parse_at` once `tbls` and `entries_count` are selected. -/
def parse_at_tbls (bios : envy_bios) (power : envy_bios_power) (bit : envy_bios_bit_entry)
    (tbls : List P_known_tables) (idx offset : Int) (name : Option String) : parse_at_result :=
  -- either we address by offset or idx
  if idx ≠ -1 ∧ offset ≠ -1 then ⟨-EINVAL, power, name, []⟩
  else
    -- lookup the index by the table's offset
    let idx : Int := if offset > -1 then (parse_at_scan tbls offset : Int) else idx
    -- check the index
    if h : idx < 0 ∨ idx ≥ (tbls.length : Int) then ⟨-ENOENT, power, name, []⟩
    else
      let t := tbls.get ⟨idx.toNat, by omega⟩
      -- check the table has the right size
      if t.offset + 2 > bit.t_len then ⟨-ENOENT, power, name, []⟩
      else
        let name := name.map (fun _ => t.name)
        let r := bios_u16 bios (bit.t_offset + t.offset) (t.ptr.get power)
        ⟨r.1, t.ptr.set power r.2, name, [bit.t_offset + t.offset]⟩

/-- The resolver `parse_at(bios, power, idx, offset, name)`.  The result is
`none` exactly when `power->bit` is the null pointer, which the C code
dereferences without a check. -/
def parse_at (bios : envy_bios) (power : envy_bios_power) (idx offset : Int)
    (name : Option String) : Option parse_at_result :=
  match power.bit with
  | none => none
  | some bit =>
    if bit.version = 0x1 then some (parse_at_tbls bios power bit p1_tbls idx offset name)
    else if bit.version = 0x2 then some (parse_at_tbls bios power bit p2_tbls idx offset name)
    else some ⟨-EINVAL, power, name, []⟩

/-! ## Directory walk `envy_bios_parse_bit_P` and the record decoders -/

/-- The store `arr[i] = v` on an array kept as a list: in place when `i` is
inside the list, at its end otherwise (the loops below store at the indices
`0, 1, 2, ...` in this order, so that `i` is never beyond the end). -/
def array_store {α : Type} (arr : List α) (i : Nat) (v : α) : List α :=
  if i < arr.length then arr.set i v else arr ++ [v]

/-- The loop `for (i = 0; i < n; i++) arr[i] = body i arr[i];`, where `n` is
not changed by the body.  An element that the array does not hold yet is
taken as `default` (all fields zero) before the body writes it. -/
def array_for {α : Type} [Inhabited α] (n : Nat) (body : Nat → α → α) (arr : List α) : List α :=
  (List.range n).foldl (fun a i => array_store a i (body i (a.getD i default))) arr

/-- The contents that C leaves indeterminate in the two decoders: the local
`tmp` of each loop iteration before its read, and the records of the storage
that each `malloc` returns (the subentries of boost entry `i`, and the
Entries2).  A failed read keeps its destination, so these contents can reach
the model; nothing in the program fixes them, and two runs need not meet the
same ones. -/
structure indeterminate where
  boost_tmp : Nat → Nat
  cstep_tmp : Nat → Nat
  subentries : Nat → Nat → envy_bios_power_boost_subentry
  ent2 : Nat → envy_bios_power_cstep_entry2

/-- The storage returned by `malloc(n * sizeof(...))`: `n` records, record `k`
holding the indeterminate contents `fresh k`. -/
def malloc {α : Type} (n : Nat) (fresh : Nat → α) : List α := (List.range n).map fresh

/-- The body of the inner loop of `envy_bios_parse_power_boost`, for subentry
`j` of the entry at `data`, acting on `*sub`. -/
def boost_subentry (bios : envy_bios) (boost : envy_bios_power_boost) (data : Nat) (j : Nat)
    (sub : envy_bios_power_boost_subentry) : envy_bios_power_boost_subentry :=
  let sdata := (data + boost.rlen + j * boost.ssz) % 65536
  let sub := { sub with offset := sdata }
  let sub := { sub with domain := (bios_u8 bios (sdata + 0x0) sub.domain).2 }
  let sub := { sub with percent := (bios_u8 bios (sdata + 0x1) sub.percent).2 }
  let sub := { sub with min := (bios_u16 bios (sdata + 0x2) sub.min).2 }
  let sub := { sub with max := (bios_u16 bios (sdata + 0x4) sub.max).2 }
  sub

/-- The body of the outer loop of `envy_bios_parse_power_boost`, acting on
`boost->entries[i]`.  The local `err` is not followed: nothing reads it after
`boost->valid` is set.  The local `tmp` is declared in the loop body without
an initial value: it holds `u.boost_tmp i` before its read, and keeps it when
the read fails.  The fresh subentry storage holds `u.subentries i`. -/
def boost_entry (u : indeterminate) (bios : envy_bios) (boost : envy_bios_power_boost) (i : Nat)
    (e : envy_bios_power_boost_entry) : envy_bios_power_boost_entry :=
  let data := (boost.offset + boost.hlen + i * (boost.rlen + (boost.snr * boost.ssz))) % 65536
  let tmp := (bios_u16 bios (data + 0x0) (u.boost_tmp i)).2
  let e := { e with min := (bios_u16 bios (data + 0x2) e.min).2 }
  let e := { e with max := (bios_u16 bios (data + 0x4) e.max).2 }
  let e := { e with offset := data }
  let e := { e with pstate := (tmp &&& 0x01e0) >>> 5 }
  let e := { e with entries := malloc boost.snr (u.subentries i) }
  { e with entries := array_for boost.snr (boost_subentry bios boost data) e.entries }

/-- The decoder `envy_bios_parse_power_boost(bios)`: the returned code and the
model after the call, for the indeterminate contents `u` that the call meets. -/
def envy_bios_parse_power_boost (u : indeterminate) (bios : envy_bios) : Int × envy_bios :=
  let boost := bios.power.boost
  let boost := { boost with version := (bios_u8 bios (boost.offset + 0x0) boost.version).2 }
  if boost.version = 0x11 then
    let err : Int := 0
    let r := bios_u8 bios (boost.offset + 0x1) boost.hlen
    let err := Int.lor err r.1
    let boost := { boost with hlen := r.2 }
    let r := bios_u8 bios (boost.offset + 0x2) boost.rlen
    let err := Int.lor err r.1
    let boost := { boost with rlen := r.2 }
    let r := bios_u8 bios (boost.offset + 0x3) boost.ssz
    let err := Int.lor err r.1
    let boost := { boost with ssz := r.2 }
    let r := bios_u8 bios (boost.offset + 0x4) boost.snr
    let err := Int.lor err r.1
    let boost := { boost with snr := r.2 }
    let r := bios_u8 bios (boost.offset + 0x5) boost.entriesnum
    let err := Int.lor err r.1
    let boost := { boost with entriesnum := r.2 }
    let boost := { boost with valid := if err = 0 then 1 else 0 }
    let boost := { boost with
      entries := array_for boost.entriesnum (boost_entry u bios boost) boost.entries }
    (0, { bios with power := { bios.power with boost := boost } })
  else
    (-EINVAL, { bios with power := { bios.power with boost := boost } })

/-- The body of the first loop of `envy_bios_parse_power_cstep`, acting on
`cstep->ent1[i]`.  The local `tmp` is declared in the loop body without an
initial value: it holds `u.cstep_tmp i` before its read, and keeps it when the
read fails. -/
def cstep_entry1 (u : indeterminate) (bios : envy_bios) (cstep : envy_bios_power_cstep) (i : Nat)
    (e : envy_bios_power_cstep_entry1) : envy_bios_power_cstep_entry1 :=
  let data := (cstep.offset + cstep.hlen + i * cstep.rlen) % 65536
  let tmp := (bios_u16 bios (data + 0x0) (u.cstep_tmp i)).2
  let e := { e with offset := data }
  let e := { e with pstate := (tmp &&& 0x01e0) >>> 5 }
  { e with index := (bios_u8 bios (data + 0x3) e.index).2 }

/-- The body of the second loop of `envy_bios_parse_power_cstep`, acting on
`cstep->ent2[i]`. -/
def cstep_entry2 (bios : envy_bios) (cstep : envy_bios_power_cstep) (i : Nat)
    (e : envy_bios_power_cstep_entry2) : envy_bios_power_cstep_entry2 :=
  let data := (cstep.offset + cstep.hlen + (cstep.entriesnum * cstep.rlen)
    + (i * cstep.ssz)) % 65536
  let e := { e with offset := data }
  let e := { e with freq := (bios_u16 bios (data + 0x0) e.freq).2 }
  let e := { e with unkn0 := (bios_u8 bios (data + 0x2) e.unkn0).2 }
  let e := { e with unkn1 := (bios_u8 bios (data + 0x3) e.unkn1).2 }
  let e := { e with voltage := (bios_u8 bios (data + 0x4) e.voltage).2 }
  { e with valid := if e.freq > 0 then 1 else 0 }

/-- The decoder `envy_bios_parse_power_cstep(bios)`: the returned code and the
model after the call, for the indeterminate contents `u` that the call meets. -/
def envy_bios_parse_power_cstep (u : indeterminate) (bios : envy_bios) : Int × envy_bios :=
  let cstep := bios.power.cstep
  let cstep := { cstep with version := (bios_u8 bios (cstep.offset + 0x0) cstep.version).2 }
  if cstep.version = 0x10 then
    let err : Int := 0
    let r := bios_u8 bios (cstep.offset + 0x1) cstep.hlen
    let err := Int.lor err r.1
    let cstep := { cstep with hlen := r.2 }
    let r := bios_u8 bios (cstep.offset + 0x2) cstep.rlen
    let err := Int.lor err r.1
    let cstep := { cstep with rlen := r.2 }
    let r := bios_u8 bios (cstep.offset + 0x3) cstep.entriesnum
    let err := Int.lor err r.1
    let cstep := { cstep with entriesnum := r.2 }
    let r := bios_u8 bios (cstep.offset + 0x4) cstep.ssz
    let err := Int.lor err r.1
    let cstep := { cstep with ssz := r.2 }
    let r := bios_u8 bios (cstep.offset + 0x5) cstep.snr
    let err := Int.lor err r.1
    let cstep := { cstep with snr := r.2 }
    let cstep := { cstep with valid := if err = 0 then 1 else 0 }
    let cstep := { cstep with
      ent1 := array_for cstep.entriesnum (cstep_entry1 u bios cstep) cstep.ent1 }
    let cstep := { cstep with ent2 := malloc cstep.snr u.ent2 }
    let cstep := { cstep with
      ent2 := array_for cstep.snr (cstep_entry2 bios cstep) cstep.ent2 }
    (0, { bios with power := { bios.power with cstep := cstep } })
  else
    (-EINVAL, { bios with power := { bios.power with cstep := cstep } })

/-- The loop `while (!parse_at(bios, power, idx, -1, NULL)) idx++;` of
`envy_bios_parse_bit_P`, run for at most `fuel` calls of `parse_at`: the power
model when the loop ends, `none` when the fuel runs out first or `power->bit`
is null. -/
def parse_bit_P_walk (bios : envy_bios) : Nat → envy_bios_power → Int → Option envy_bios_power
  | 0, _, _ => none
  | fuel + 1, power, idx =>
    match parse_at bios power idx (-1) none with
    | none => none
    | some r => if r.ret = 0 then parse_bit_P_walk bios fuel r.power (idx + 1) else some r.power

/-- The directory parse `envy_bios_parse_bit_P(bios, bit)`: the returned code
and the model after the call, for a walk of at most `fuel` steps and the
indeterminate contents `u` that the two decoders meet. -/
def envy_bios_parse_bit_P (fuel : Nat) (u : indeterminate) (bios : envy_bios)
    (bit : envy_bios_bit_entry) : Option (Int × envy_bios) :=
  let power := { bios.power with bit := some bit }
  match parse_bit_P_walk bios fuel power 0 with
  | none => none
  | some power =>
    let bios := { bios with power := power }
    let bios := (envy_bios_parse_power_boost u bios).2
    let bios := (envy_bios_parse_power_cstep u bios).2
    some (0, bios)

/-- The power model with its nine slot offsets blanked.  Two models with the same
blanked model differ in slot offsets only. -/
def clear_offsets (power : envy_bios_power) : envy_bios_power :=
  { power with
    perf := { power.perf with offset := 0 }
    timing := { power.timing with offset := 0 }
    therm := { power.therm with offset := 0 }
    volt := { power.volt with offset := 0 }
    unk := { power.unk with offset := 0 }
    timing_map := { power.timing_map with offset := 0 }
    volt_map := { power.volt_map with offset := 0 }
    boost := { power.boost with offset := 0 }
    cstep := { power.cstep with offset := 0 } }

/-! ## Concrete inputs for the examples -/

/-- A model with every field zero and no directory attached. -/
def power_zero : envy_bios_power := default

/-- Indeterminate contents with every byte `0x5a`. -/
def uninit_5a : indeterminate :=
  { boost_tmp := fun _ => 0x5a5a
    cstep_tmp := fun _ => 0x5a5a
    subentries := fun _ _ =>
      { offset := 0x5a5a, domain := 0x5a, percent := 0x5a, min := 0x5a5a, max := 0x5a5a }
    ent2 := fun _ =>
      { offset := 0x5a5a, freq := 0x5a5a, unkn0 := 0x5a, unkn1 := 0x5a, voltage := 0x5a,
        valid := 0x5a } }

/-- A four-byte image whose first 16-bit word is `0x0120`. -/
def bios_perf : envy_bios := { data := [0x20, 0x01, 0x00, 0x00], power := power_zero }

/-- A version 1 directory at image offset 0, four bytes long. -/
def bit_v1_short : envy_bios_bit_entry := { offset := 0, version := 1, t_offset := 0, t_len := 4 }

/-- A 64-byte image whose byte at offset `i` is `i + 1`. -/
def bios_ramp : envy_bios := { data := (List.range 64).map (fun i => i + 1), power := power_zero }

/-- A version 2 directory at image offset 0 that holds all nine slots. -/
def bit_v2_full : envy_bios_bit_entry :=
  { offset := 0, version := 2, t_offset := 0, t_len := 0x36 }

/-- A BOOST table at offset 1 with header `hlen = rlen = ssz = snr = 255` and two
entries: the second entry lies at `1 + 255 + (255 + 255 * 255) = 65536`. -/
def bios_boost_wrap : envy_bios :=
  { data := [0x00, 0x11, 0xff, 0xff, 0xff, 0xff, 0x02],
    power := { power_zero with boost := { power_zero.boost with offset := 1 } } }

/-- The BOOST table of the specification's scenario, at offset 2: `hlen = 6`,
`rlen = 4`, `ssz = 6`, `snr = 2`, `entriesnum = 1`, packed field `0x00a0`. -/
def bios_boost_small : envy_bios :=
  { data := [0x00, 0x00, 0x11, 6, 4, 6, 2, 1, 0xa0, 0x00, 0x10, 0x00,
             1, 50, 0x20, 0x00, 0x30, 0x00, 2, 60, 0x40, 0x00, 0x50, 0x00],
    power := { power_zero with boost := { power_zero.boost with offset := 2 } } }

/-- A CSTEP table at offset 0: `hlen = 6`, `rlen = 4`, `entriesnum = 1`, `ssz = 5`,
`snr = 2`; the first Entries2 record has frequency 0, the second 300. -/
def bios_cstep_small : envy_bios :=
  { data := [0x10, 6, 4, 1, 5, 2, 0xa0, 0x00, 0x00, 7, 0x00, 0x00, 1, 2, 3,
             0x2c, 0x01, 4, 5, 6],
    power := power_zero }

/-- An image that starts with the byte `0x10` followed by a CSTEP header
(`hlen = 6`, `rlen = 0`, `entriesnum = 0`, `ssz = 5`, `snr = 1`), one Entries2
record at offset 6 (frequency 300), and a two-slot directory at offset 12
whose first slot is `0x1234`. -/
def bios_sig10 : envy_bios :=
  { data := [0x10, 6, 0, 0, 5, 1, 0x2c, 0x01, 7, 8, 9, 0x00, 0x34, 0x12, 0x00, 0x00],
    power := power_zero }

/-- A version 1 directory at image offset 12, four bytes long. -/
def bit_v1_tail : envy_bios_bit_entry := { offset := 0, version := 1, t_offset := 12, t_len := 4 }

/-- A five-byte image holding a CSTEP header cut before its last field:
`hlen = 2`, `rlen = 0xa0`, `entriesnum = 1`, `ssz = 0`, and no `snr` byte. -/
def bios_cstep_cut : envy_bios := { data := [0x10, 2, 0xa0, 1, 0], power := power_zero }

/-- A four-byte image holding a BOOST header cut after `ssz`. -/
def bios_boost_cut : envy_bios := { data := [0x11, 6, 4, 6], power := power_zero }

/-- A directory entry of the unsupported version 3. -/
def bit_v3 : envy_bios_bit_entry := { offset := 0, version := 3, t_offset := 0, t_len := 0x36 }

/-- A 517-byte image that is zero up to a CSTEP table at offset 511 with header
`hlen = 255`, `rlen = 0`, `entriesnum = 0`, `ssz = 255`, `snr = 255`: the
Entries2 record 254 lies at `511 + 255 + 254 * 255 = 65536`. -/
def bios_cstep_far : envy_bios :=
  { data := List.replicate 511 0 ++ [0x10, 0xff, 0x00, 0x00, 0xff, 0xff],
    power := { power_zero with cstep := { power_zero.cstep with offset := 511 } } }

/-- One `fprintf` of `envy_bios_print_bit_P`: the heading
`BIT table 'P' at 0x%x, version %i`, a slot line `0x%02x: 0x%x => %s TABLE`, or
the closing empty line. -/
inductive P_line where
  | header (offset version : Nat)
  | slot (i addr : Nat) (name : String)
  | blank
deriving DecidableEq, Inhabited

/-- The state of the loop of `envy_bios_print_bit_P`: the power model (which
`parse_at` writes), the local `addr`, the lines printed so far, and the
positions handed to `parse_at` so far. -/
structure print_bit_P_state where
  power : envy_bios_power
  addr : Nat
  out : List P_line
  resolved : List Nat
deriving DecidableEq, Inhabited

/-- The body of the loop of `envy_bios_print_bit_P` at position `i`.  The branch
`none` of `parse_at` is not reached: `power->bit` is not null inside the
loop. -/
def print_bit_P_body (bios : envy_bios) (bit : envy_bios_bit_entry) (st : print_bit_P_state)
    (i : Nat) : print_bit_P_state :=
  let r := bios_u16 bios (bit.t_offset + i) st.addr
  let st := { st with addr := r.2 }
  if r.1 = 0 ∧ st.addr ≠ 0 then
    match parse_at bios st.power (-1) i (some "UNKNOWN") with
    | none => st
    | some p =>
      { st with
        power := p.power
        out := st.out ++ [P_line.slot i st.addr (p.name.getD "UNKNOWN")]
        resolved := st.resolved ++ [i] }
  else st

/-- The report `envy_bios_print_bit_P(bios, out, mask)`, with the missing constant
`ENVY_BIOS_PRINT_PERF` of `bios.h` as a parameter.  The loop
`for (i = 0; i < t_len; i += 2)` runs at the positions `2 * n` for `n` below
`(t_len + 1) / 2`; the local `addr` is indeterminate before the first read and
is taken as zero.  The result is the state when the function returns, the
closing empty line included. -/
def envy_bios_print_bit_P (ENVY_BIOS_PRINT_PERF : Nat) (bios : envy_bios) (mask : Nat) :
    print_bit_P_state :=
  let power := bios.power
  match power.bit with
  | none => ⟨power, 0, [], []⟩
  | some bit =>
    if mask &&& ENVY_BIOS_PRINT_PERF = 0 then ⟨power, 0, [], []⟩
    else
      let st : print_bit_P_state := ⟨power, 0, [P_line.header bit.offset bit.version], []⟩
      let st := (List.range ((bit.t_len + 1) / 2)).foldl
        (fun st n => print_bit_P_body bios bit st (2 * n)) st
      { st with out := st.out ++ [P_line.blank] }

/-- A version 1 directory at image offset 0, seven bytes long. -/
def bit_v1_odd : envy_bios_bit_entry := { offset := 0x40, version := 1, t_offset := 0, t_len := 7 }

/-- An eight-byte image: words `0x0120`, `0x0000`, `0x0230`, `0x0340`. -/
def bios_report : envy_bios :=
  { data := [0x20, 0x01, 0x00, 0x00, 0x30, 0x02, 0x40, 0x03],
    power := { power_zero with bit := some bit_v1_odd } }

/-! ## Slot pointers -/

theorem P_ptr.get_set (power : envy_bios_power) (p q : P_ptr) (v : Nat) :
    q.get (p.set power v) = if q = p then v else q.get power := by
  cases p <;> cases q <;> rfl

theorem P_ptr.set_get (power : envy_bios_power) (p : P_ptr) :
    p.set power (p.get power) = power := by
  cases p <;> rfl

theorem P_ptr.set_bit (power : envy_bios_power) (p : P_ptr) (v : Nat) :
    (p.set power v).bit = power.bit := by
  cases p <;> rfl

/-! ## The resolver -/

theorem parse_at_of_bit (bios : envy_bios) (power : envy_bios_power) (bit : envy_bios_bit_entry)
    (tbls : List P_known_tables) (idx offset : Int) (name : Option String)
    (hbit : power.bit = some bit)
    (hver : (bit.version = 1 ∧ tbls = p1_tbls) ∨ (bit.version = 2 ∧ tbls = p2_tbls)) :
    parse_at bios power idx offset name
      = some (parse_at_tbls bios power bit tbls idx offset name) := by
  rcases hver with ⟨hv, rfl⟩ | ⟨hv, rfl⟩ <;> simp [parse_at, hbit, hv]

theorem parse_at_tbls_idx (bios : envy_bios) (power : envy_bios_power) (bit : envy_bios_bit_entry)
    (tbls : List P_known_tables) (k : Nat) (s : P_known_tables) (name : Option String)
    (hs : tbls[k]? = some s) :
    parse_at_tbls bios power bit tbls k (-1) name =
      if s.offset + 2 > bit.t_len then ⟨-ENOENT, power, name, []⟩
      else ⟨(bios_u16 bios (bit.t_offset + s.offset) (s.ptr.get power)).1,
            s.ptr.set power (bios_u16 bios (bit.t_offset + s.offset) (s.ptr.get power)).2,
            name.map (fun _ => s.name), [bit.t_offset + s.offset]⟩ := by
  obtain ⟨hk, rfl⟩ := List.getElem?_eq_some.1 hs
  unfold parse_at_tbls
  have h1 : ¬ ((k : Int) ≠ -1 ∧ (-1 : Int) ≠ -1) := by omega
  simp only [h1, if_false]
  have h2 : ¬ ((-1 : Int) > -1) := by omega
  simp only [h2, if_false]
  have h3 : ¬ ((k : Int) < 0 ∨ (k : Int) ≥ (tbls.length : Int)) := by omega
  simp only [h3, dite_false, Int.toNat_ofNat, List.get_eq_getElem]

theorem parse_at_scan_le (tbls : List P_known_tables) (offset : Int) :
    parse_at_scan tbls offset ≤ tbls.length := by
  induction tbls with
  | nil => simp [parse_at_scan]
  | cons t ts ih =>
    simp only [parse_at_scan, List.length_cons]
    split <;> omega

theorem parse_at_scan_getElem (tbls : List P_known_tables)
    (hnd : (tbls.map (fun t => t.offset)).Nodup) (k : Nat) (s : P_known_tables)
    (hs : tbls[k]? = some s) : parse_at_scan tbls (s.offset : Int) = k := by
  induction tbls generalizing k with
  | nil => simp at hs
  | cons t ts ih =>
    rw [List.map_cons, List.nodup_cons] at hnd
    cases k with
    | zero =>
      simp only [List.getElem?_cons_zero, Option.some.injEq] at hs
      subst hs
      simp [parse_at_scan]
    | succ k =>
      simp only [List.getElem?_cons_succ] at hs
      have hmem : s.offset ∈ ts.map (fun t => t.offset) :=
        List.mem_map.2 ⟨s, List.getElem?_mem hs, rfl⟩
      have hne : (t.offset : Int) ≠ (s.offset : Int) := by
        intro h
        have : t.offset = s.offset := by exact_mod_cast h
        exact hnd.1 (this ▸ hmem)
      simp only [parse_at_scan, hne, ne_eq, not_false_eq_true, if_true, ih hnd.2 k hs]

theorem p1_tbls_nodup : (p1_tbls.map (fun t => t.offset)).Nodup := by decide

theorem p2_tbls_nodup : (p2_tbls.map (fun t => t.offset)).Nodup := by decide

theorem tbls_offset_nodup (bit : envy_bios_bit_entry) (tbls : List P_known_tables)
    (hver : (bit.version = 1 ∧ tbls = p1_tbls) ∨ (bit.version = 2 ∧ tbls = p2_tbls)) :
    (tbls.map (fun t => t.offset)).Nodup := by
  rcases hver with ⟨_, rfl⟩ | ⟨_, rfl⟩
  · exact p1_tbls_nodup
  · exact p2_tbls_nodup

theorem parse_at_tbls_offset (bios : envy_bios) (power : envy_bios_power)
    (bit : envy_bios_bit_entry) (tbls : List P_known_tables)
    (hnd : (tbls.map (fun t => t.offset)).Nodup)
    (k : Nat) (s : P_known_tables) (name : Option String)
    (hs : tbls[k]? = some s) :
    parse_at_tbls bios power bit tbls (-1) s.offset name =
      parse_at_tbls bios power bit tbls k (-1) name := by
  obtain ⟨hk, hk2⟩ := List.getElem?_eq_some.1 hs
  have hscan := parse_at_scan_getElem tbls hnd k s hs
  unfold parse_at_tbls
  have h1 : ¬ ((k : Int) ≠ -1 ∧ (-1 : Int) ≠ -1) := by omega
  have h1' : ¬ ((-1 : Int) ≠ -1 ∧ (s.offset : Int) ≠ -1) := by omega
  have h2 : ¬ ((-1 : Int) > -1) := by omega
  have h2' : (s.offset : Int) > -1 := by omega
  simp only [h1, h1', h2, h2', if_false, if_true, hscan]

/-- With exactly one selector naming the slot `s` (index `k` of the layout),
`parse_at` is the by-index resolution of `s`. -/
theorem parse_at_select (bios : envy_bios) (power : envy_bios_power) (bit : envy_bios_bit_entry)
    (tbls : List P_known_tables) (k : Nat) (s : P_known_tables) (idx offset : Int)
    (name : Option String)
    (hbit : power.bit = some bit)
    (hver : (bit.version = 1 ∧ tbls = p1_tbls) ∨ (bit.version = 2 ∧ tbls = p2_tbls))
    (hs : tbls[k]? = some s)
    (hsel : (idx = (k : Int) ∧ offset = -1) ∨ (idx = -1 ∧ offset = (s.offset : Int))) :
    parse_at bios power idx offset name = some (
      if s.offset + 2 > bit.t_len then ⟨-ENOENT, power, name, []⟩
      else ⟨(bios_u16 bios (bit.t_offset + s.offset) (s.ptr.get power)).1,
            s.ptr.set power (bios_u16 bios (bit.t_offset + s.offset) (s.ptr.get power)).2,
            name.map (fun _ => s.name), [bit.t_offset + s.offset]⟩) := by
  rw [parse_at_of_bit bios power bit tbls idx offset name hbit hver]
  rcases hsel with ⟨rfl, rfl⟩ | ⟨rfl, rfl⟩
  · rw [parse_at_tbls_idx bios power bit tbls k s name hs]
  · rw [parse_at_tbls_offset bios power bit tbls (tbls_offset_nodup bit tbls hver) k s name hs,
      parse_at_tbls_idx bios power bit tbls k s name hs]

/-- C1: for a directory of version 1 or 2 and exactly one selector (index `k`, or
the byte offset of slot `k`) naming a known slot `s` that fits in the
directory, `parse_at` reports the name of `s`, performs the single 16-bit
read at `t_offset + s.offset`, returns the accessor's code unchanged, stores
the accessor's value in the offset field of `s` and in no other slot field;
when the read is inside the image the code is 0 and the stored value is the
little-endian word found there. -/
theorem parse_at_resolves_slot (bios : envy_bios) (power : envy_bios_power)
    (bit : envy_bios_bit_entry) (tbls : List P_known_tables) (k : Nat) (s : P_known_tables)
    (idx offset : Int) (name : Option String)
    (hbit : power.bit = some bit)
    (hver : (bit.version = 1 ∧ tbls = p1_tbls) ∨ (bit.version = 2 ∧ tbls = p2_tbls))
    (hs : tbls[k]? = some s)
    (hsel : (idx = (k : Int) ∧ offset = -1) ∨ (idx = -1 ∧ offset = (s.offset : Int)))
    (hlen : s.offset + 2 ≤ bit.t_len) :
    ∃ r, parse_at bios power idx offset name = some r
      ∧ r.name = name.map (fun _ => s.name)
      ∧ r.reads = [bit.t_offset + s.offset]
      ∧ r.ret = (bios_u16 bios (bit.t_offset + s.offset) (s.ptr.get power)).1
      ∧ r.power = s.ptr.set power (bios_u16 bios (bit.t_offset + s.offset) (s.ptr.get power)).2
      ∧ (bit.t_offset + s.offset + 2 ≤ bios.data.length →
          r.ret = 0 ∧ s.ptr.get r.power
            = bios.data.getD (bit.t_offset + s.offset) 0 % 256
              + 256 * (bios.data.getD (bit.t_offset + s.offset + 1) 0 % 256))
      ∧ (∀ q : P_ptr, q ≠ s.ptr → q.get r.power = q.get power) := by
  have hlen' : ¬ (s.offset + 2 > bit.t_len) := by omega
  refine ⟨_, parse_at_select bios power bit tbls k s idx offset name hbit hver hs hsel, ?_⟩
  simp only [hlen', if_false, true_and]
  refine ⟨?_, ?_⟩
  · intro hin
    simp [bios_u16, hin, P_ptr.get_set]
  · intro q hq
    simp [P_ptr.get_set, hq]

/-- C1, at the scenario of the specification: in a version 1 directory whose
slot `0x00` holds `0x0120`, index 0 resolves to "PERFORMANCE" with offset
`0x120`. -/
theorem parse_at_resolves_slot_witness :
    ∃ r, parse_at bios_perf { power_zero with bit := some bit_v1_short } 0 (-1) (some "UNKNOWN")
        = some r
      ∧ r.ret = 0 ∧ r.name = some "PERFORMANCE" ∧ r.power.perf.offset = 0x120
      ∧ r.reads = [0] := by
  obtain ⟨r, hr, hname, hreads, -, -, hval, -⟩ :=
    parse_at_resolves_slot bios_perf { power_zero with bit := some bit_v1_short } bit_v1_short
      p1_tbls 0 ⟨0x00, .perf, "PERFORMANCE"⟩ 0 (-1) (some "UNKNOWN") rfl
      (Or.inl ⟨rfl, rfl⟩) rfl (Or.inl ⟨rfl, rfl⟩) (by decide)
  obtain ⟨hret, hv⟩ := hval (by decide)
  exact ⟨r, hr, hret, hname, hv, hreads⟩

/-! ## The directory walk -/

theorem clear_offsets_set (power : envy_bios_power) (p : P_ptr) (v : Nat) :
    clear_offsets (p.set power v) = clear_offsets power := by
  cases p <;> rfl

theorem tbls_pairwise (bit : envy_bios_bit_entry) (tbls : List P_known_tables)
    (hver : (bit.version = 1 ∧ tbls = p1_tbls) ∨ (bit.version = 2 ∧ tbls = p2_tbls)) :
    tbls.Pairwise (fun a b => a.offset < b.offset ∧ a.ptr ≠ b.ptr) := by
  rcases hver with ⟨_, rfl⟩ | ⟨_, rfl⟩ <;> decide

theorem tbls_later (bit : envy_bios_bit_entry) (tbls : List P_known_tables)
    (hver : (bit.version = 1 ∧ tbls = p1_tbls) ∨ (bit.version = 2 ∧ tbls = p2_tbls))
    (i j : Nat) (s t : P_known_tables) (hij : i < j) (hs : tbls[i]? = some s)
    (ht : tbls[j]? = some t) : s.offset < t.offset ∧ s.ptr ≠ t.ptr := by
  obtain ⟨hi, rfl⟩ := List.getElem?_eq_some.1 hs
  obtain ⟨hj, rfl⟩ := List.getElem?_eq_some.1 ht
  exact List.pairwise_iff_getElem.1 (tbls_pairwise bit tbls hver) i j hi hj hij

theorem parse_at_tbls_idx_ge (bios : envy_bios) (power : envy_bios_power)
    (bit : envy_bios_bit_entry) (tbls : List P_known_tables) (k : Nat) (name : Option String)
    (hk : tbls.length ≤ k) :
    parse_at_tbls bios power bit tbls k (-1) name = ⟨-ENOENT, power, name, []⟩ := by
  unfold parse_at_tbls
  have h1 : ¬ ((k : Int) ≠ -1 ∧ (-1 : Int) ≠ -1) := by omega
  have h2 : ¬ ((-1 : Int) > -1) := by omega
  have h3 : ((k : Int) < 0 ∨ (k : Int) ≥ (tbls.length : Int)) := by omega
  simp only [h1, h2, if_false, h3, dite_true]

theorem parse_bit_P_walk_spec (bios : envy_bios) (bit : envy_bios_bit_entry)
    (tbls : List P_known_tables)
    (hver : (bit.version = 1 ∧ tbls = p1_tbls) ∨ (bit.version = 2 ∧ tbls = p2_tbls)) :
    ∀ (n i fuel : Nat) (power : envy_bios_power), i + n = tbls.length → n < fuel →
      power.bit = some bit →
      ∃ power', parse_bit_P_walk bios fuel power (i : Int) = some power'
        ∧ clear_offsets power' = clear_offsets power
        ∧ ∀ q : P_ptr,
          (∀ j s, i ≤ j → tbls[j]? = some s → s.ptr = q → s.offset + 2 ≤ bit.t_len →
            bit.t_offset + s.offset + 2 ≤ bios.data.length →
            q.get power' = bios.data.getD (bit.t_offset + s.offset) 0 % 256
              + 256 * (bios.data.getD (bit.t_offset + s.offset + 1) 0 % 256))
          ∧ ((∀ j s, i ≤ j → tbls[j]? = some s → s.ptr = q →
                ¬ (s.offset + 2 ≤ bit.t_len ∧ bit.t_offset + s.offset + 2 ≤ bios.data.length)) →
              q.get power' = q.get power) := by
  intro n
  induction n with
  | zero =>
    intro i fuel power hi hfuel hbit
    obtain ⟨f, rfl⟩ : ∃ f, fuel = f + 1 := ⟨fuel - 1, by omega⟩
    refine ⟨power, ?_, rfl, ?_⟩
    · simp only [parse_bit_P_walk,
        parse_at_of_bit bios power bit tbls (i : Int) (-1) none hbit hver,
        parse_at_tbls_idx_ge bios power bit tbls i none (by omega)]
      simp [ENOENT]
    · intro q
      refine ⟨?_, fun _ => rfl⟩
      intro j s hij hs
      have := (List.getElem?_eq_some.1 hs).1
      omega
  | succ n ih =>
    intro i fuel power hi hfuel hbit
    obtain ⟨f, rfl⟩ : ∃ f, fuel = f + 1 := ⟨fuel - 1, by omega⟩
    have hilt : i < tbls.length := by omega
    have hs : tbls[i]? = some tbls[i] := List.getElem?_eq_getElem hilt
    generalize tbls[i] = s at hs
    have hstep : parse_at bios power (i : Int) (-1) none = _ :=
      parse_at_select bios power bit tbls i s (i : Int) (-1) none hbit hver hs (Or.inl ⟨rfl, rfl⟩)
    have hlater : ∀ j t, i ≤ j → tbls[j]? = some t → s.offset ≤ t.offset := by
      intro j t hij ht
      rcases Nat.eq_or_lt_of_le hij with rfl | hlt
      · rw [hs] at ht; cases ht; exact le_refl _
      · exact le_of_lt (tbls_later bit tbls hver i j s t hlt hs ht).1
    by_cases hok : s.offset + 2 ≤ bit.t_len ∧ bit.t_offset + s.offset + 2 ≤ bios.data.length
    · -- the slot resolves: the walk goes on with the next index
      have hlen' : ¬ (s.offset + 2 > bit.t_len) := by omega
      obtain ⟨power', hw, hclr, hq⟩ := ih (i + 1) f
        (s.ptr.set power (bios_u16 bios (bit.t_offset + s.offset) (s.ptr.get power)).2)
        (by omega) (by omega) (by rw [P_ptr.set_bit]; exact hbit)
      refine ⟨power', ?_, ?_, ?_⟩
      · simp only [parse_bit_P_walk, hstep, hlen', if_false]
        have : (bios_u16 bios (bit.t_offset + s.offset) (s.ptr.get power)).1 = 0 := by
          simp [bios_u16, hok.2]
        simp only [this, if_true]
        exact_mod_cast hw
      · rw [hclr, clear_offsets_set]
      · intro q
        have hval : (bios_u16 bios (bit.t_offset + s.offset) (s.ptr.get power)).2
            = bios.data.getD (bit.t_offset + s.offset) 0 % 256
              + 256 * (bios.data.getD (bit.t_offset + s.offset + 1) 0 % 256) := by
          simp [bios_u16, hok.2]
        refine ⟨?_, ?_⟩
        · intro j t hij ht hptr hl1 hl2
          rcases Nat.eq_or_lt_of_le hij with rfl | hlt
          · rw [hs] at ht; cases ht
            rw [(hq q).2, P_ptr.get_set, if_pos hptr.symm, hval]
            intro j' t' hij' ht' hptr'
            exact absurd (hptr'.trans hptr.symm).symm
              (tbls_later bit tbls hver i j' s t' (by omega) hs ht').2
          · exact (hq q).1 j t (by omega) ht hptr hl1 hl2
        · intro hnone
          have hne : q ≠ s.ptr := fun h => hnone i s (le_refl _) hs h.symm hok
          rw [(hq q).2 (fun j t hij ht hptr => hnone j t (by omega) ht hptr),
            P_ptr.get_set, if_neg hne]
    · -- the slot does not resolve: the walk ends here, with nothing written
      have hres : ∃ r : parse_at_result, parse_at bios power (i : Int) (-1) none = some r
          ∧ r.ret ≠ 0 ∧ r.power = power := by
        by_cases hlen : s.offset + 2 > bit.t_len
        · exact ⟨_, by rw [hstep, if_pos hlen], by simp [ENOENT], rfl⟩
        · have hrd : ¬ (bit.t_offset + s.offset + 2 ≤ bios.data.length) := fun h =>
            hok ⟨by omega, h⟩
          refine ⟨_, by rw [hstep, if_neg hlen], ?_, ?_⟩
          · simp [bios_u16, hrd, EFAULT]
          · simp [bios_u16, hrd, P_ptr.set_get]
      obtain ⟨r, hr, hret, hpow⟩ := hres
      refine ⟨power, ?_, rfl, ?_⟩
      · simp only [parse_bit_P_walk, hr, hret, if_false, hpow]
      · intro q
        refine ⟨?_, fun _ => rfl⟩
        intro j t hij ht _ hl1 hl2
        have := hlater j t hij ht
        exact absurd ⟨by omega, by omega⟩ hok

theorem parse_power_boost_frame (u : indeterminate) (bios : envy_bios) :
    (envy_bios_parse_power_boost u bios).2.data = bios.data
    ∧ (envy_bios_parse_power_boost u bios).2.power
        = { bios.power with boost := (envy_bios_parse_power_boost u bios).2.power.boost }
    ∧ (envy_bios_parse_power_boost u bios).2.power.boost.offset = bios.power.boost.offset := by
  unfold envy_bios_parse_power_boost
  dsimp only
  split <;> exact ⟨rfl, rfl, rfl⟩

theorem parse_power_cstep_frame (u : indeterminate) (bios : envy_bios) :
    (envy_bios_parse_power_cstep u bios).2.data = bios.data
    ∧ (envy_bios_parse_power_cstep u bios).2.power
        = { bios.power with cstep := (envy_bios_parse_power_cstep u bios).2.power.cstep }
    ∧ (envy_bios_parse_power_cstep u bios).2.power.cstep.offset = bios.power.cstep.offset := by
  unfold envy_bios_parse_power_cstep
  dsimp only
  split <;> exact ⟨rfl, rfl, rfl⟩

theorem parse_power_boost_get (u : indeterminate) (bios : envy_bios) (q : P_ptr) :
    q.get (envy_bios_parse_power_boost u bios).2.power = q.get bios.power := by
  obtain ⟨-, h2, h3⟩ := parse_power_boost_frame u bios
  rw [h2]
  cases q <;> first | rfl | exact h3

theorem parse_power_cstep_get (u : indeterminate) (bios : envy_bios) (q : P_ptr) :
    q.get (envy_bios_parse_power_cstep u bios).2.power = q.get bios.power := by
  obtain ⟨-, h2, h3⟩ := parse_power_cstep_frame u bios
  rw [h2]
  cases q <;> first | rfl | exact h3

theorem parse_bit_P_of_walk (u : indeterminate) (fuel : Nat) (bios : envy_bios)
    (bit : envy_bios_bit_entry)
    (power' : envy_bios_power)
    (hw : parse_bit_P_walk bios fuel { bios.power with bit := some bit } 0 = some power') :
    envy_bios_parse_bit_P fuel u bios bit = some (0,
      (envy_bios_parse_power_cstep u
        (envy_bios_parse_power_boost u { bios with power := power' }).2).2) := by
  simp only [envy_bios_parse_bit_P, hw]

/-- C2: for a directory of version 1 or 2, `envy_bios_parse_bit_P` returns 0 and
leaves, in every slot field `q`: the little-endian word at
`t_offset + s.offset` when `q` is the field of a slot `s` of the layout that
fits in the directory and whose read is inside the image, and the value it
had before otherwise.  So no slot that resolves is left out by the walk
ending at the first failure. -/
theorem parse_bit_P_records_slots (u : indeterminate) (fuel : Nat) (bios : envy_bios)
    (bit : envy_bios_bit_entry)
    (tbls : List P_known_tables)
    (hver : (bit.version = 1 ∧ tbls = p1_tbls) ∨ (bit.version = 2 ∧ tbls = p2_tbls))
    (hfuel : 10 ≤ fuel) :
    ∃ bios', envy_bios_parse_bit_P fuel u bios bit = some (0, bios')
      ∧ ∀ q : P_ptr,
        (∀ s ∈ tbls, s.ptr = q → s.offset + 2 ≤ bit.t_len →
          bit.t_offset + s.offset + 2 ≤ bios.data.length →
          q.get bios'.power = bios.data.getD (bit.t_offset + s.offset) 0 % 256
            + 256 * (bios.data.getD (bit.t_offset + s.offset + 1) 0 % 256))
        ∧ ((∀ s ∈ tbls, s.ptr = q →
              ¬ (s.offset + 2 ≤ bit.t_len ∧ bit.t_offset + s.offset + 2 ≤ bios.data.length)) →
            q.get bios'.power = q.get bios.power) := by
  have hlen : tbls.length < fuel := by
    rcases hver with ⟨_, rfl⟩ | ⟨_, rfl⟩ <;> simp [p1_tbls, p2_tbls] <;> omega
  obtain ⟨power', hw, -, hq⟩ := parse_bit_P_walk_spec bios bit tbls hver tbls.length 0 fuel
    { bios.power with bit := some bit } (by omega) hlen rfl
  have hw' : parse_bit_P_walk bios fuel { bios.power with bit := some bit } 0 = some power' := by
    exact_mod_cast hw
  refine ⟨_, parse_bit_P_of_walk u fuel bios bit power' hw', ?_⟩
  intro q
  have h0 : q.get { bios.power with bit := some bit } = q.get bios.power := by
    cases q <;> rfl
  rw [parse_power_cstep_get, parse_power_boost_get]
  refine ⟨?_, ?_⟩
  · intro s hs hptr hl1 hl2
    obtain ⟨j, hj⟩ := List.getElem?_of_mem hs
    exact (hq q).1 j s (Nat.zero_le _) hj hptr hl1 hl2
  · intro hnone
    rw [(hq q).2 (fun j s _ hj hptr => hnone s (List.getElem?_mem hj) hptr), h0]

/-- C2, on a 64-byte image under a full version 2 directory: the walk records all
nine slots, the last two being BOOST (`0x3231`) and CSTEP (`0x3635`). -/
theorem parse_bit_P_records_slots_witness :
    ∃ bios', envy_bios_parse_bit_P 10 uninit_5a bios_ramp bit_v2_full = some (0, bios')
      ∧ bios'.power.perf.offset = 0x0201
      ∧ bios'.power.boost.offset = 0x3231
      ∧ bios'.power.cstep.offset = 0x3635 := by
  obtain ⟨bios', hp, hq⟩ := parse_bit_P_records_slots uninit_5a 10 bios_ramp bit_v2_full p2_tbls
    (Or.inr ⟨rfl, rfl⟩) (le_refl _)
  refine ⟨bios', hp, ?_, ?_, ?_⟩
  · exact (hq .perf).1 ⟨0x00, .perf, "PERFORMANCE"⟩ (by decide) rfl (by decide) (by decide)
  · exact (hq .boost).1 ⟨0x30, .boost, "BOOST"⟩ (by decide) rfl (by decide) (by decide)
  · exact (hq .cstep).1 ⟨0x34, .cstep, "CSTEP"⟩ (by decide) rfl (by decide) (by decide)

/-! ## Arrays written by a loop -/

theorem array_store_length {α : Type} (arr : List α) (i : Nat) (v : α) (hi : i ≤ arr.length) :
    (array_store arr i v).length = max arr.length (i + 1) := by
  unfold array_store
  split
  · rw [List.length_set]; omega
  · rw [List.length_append, List.length_singleton]; omega

theorem array_store_getElem? {α : Type} (arr : List α) (i j : Nat) (v : α)
    (hi : i ≤ arr.length) :
    (array_store arr i v)[j]? = if j = i then some v else arr[j]? := by
  unfold array_store
  split
  · next h =>
    rw [List.getElem?_set]
    by_cases hji : j = i
    · subst hji; simp [h]
    · simp [hji, Ne.symm hji]
  · next h =>
    have hil : i = arr.length := by omega
    subst hil
    by_cases hji : j = arr.length
    · subst hji; simp
    · rw [if_neg hji]
      rcases Nat.lt_or_gt_of_ne hji with hlt | hgt
      · rw [List.getElem?_append_left hlt]
      · rw [List.getElem?_eq_none (by simp; omega), List.getElem?_eq_none (by omega)]

theorem array_for_succ {α : Type} [Inhabited α] (n : Nat) (body : Nat → α → α) (arr : List α) :
    array_for (n + 1) body arr
      = array_store (array_for n body arr) n (body n ((array_for n body arr).getD n default)) := by
  simp [array_for, List.range_succ, List.foldl_append]

theorem array_for_length {α : Type} [Inhabited α] (n : Nat) (body : Nat → α → α)
    (arr : List α) : (array_for n body arr).length = max arr.length n := by
  induction n with
  | zero => simp [array_for]
  | succ n ih =>
    rw [array_for_succ, array_store_length _ _ _ (by omega), ih]; omega

theorem array_for_getElem?_ge {α : Type} [Inhabited α] (n : Nat) (body : Nat → α → α)
    (arr : List α) (i : Nat) (hi : n ≤ i) : (array_for n body arr)[i]? = arr[i]? := by
  induction n with
  | zero => simp [array_for]
  | succ n ih =>
    rw [array_for_succ, array_store_getElem? _ _ _ _ (by rw [array_for_length]; omega),
      if_neg (by omega), ih (by omega)]

theorem array_for_getElem?_lt {α : Type} [Inhabited α] (n : Nat) (body : Nat → α → α)
    (arr : List α) (i : Nat) (hi : i < n) :
    (array_for n body arr)[i]? = some (body i (arr.getD i default)) := by
  induction n with
  | zero => omega
  | succ n ih =>
    rw [array_for_succ, array_store_getElem? _ _ _ _ (by rw [array_for_length]; omega)]
    by_cases hin : i = n
    · subst hin
      rw [if_pos rfl]
      have : (array_for i body arr).getD i default = arr.getD i default := by
        rw [List.getD_eq_getElem?_getD, array_for_getElem?_ge _ _ _ _ (le_refl _),
          List.getD_eq_getElem?_getD]
      rw [this]
    · rw [if_neg hin, ih (by omega)]

theorem malloc_length {α : Type} (n : Nat) (fresh : Nat → α) : (malloc n fresh).length = n := by
  simp [malloc]

/-! ## The BOOST decoder -/

/-- The boost decoder on a table whose version byte is `0x11`: the header
fields are what the five reads leave, and the entries are written by the
entry loop over the storage as it was. -/
theorem parse_power_boost_supported (u : indeterminate) (bios : envy_bios)
    (hv : (bios_u8 bios (bios.power.boost.offset + 0x0) bios.power.boost.version).2 = 0x11) :
    (envy_bios_parse_power_boost u bios).1 = 0
    ∧ (envy_bios_parse_power_boost u bios).2.power.boost.version = 0x11
    ∧ (envy_bios_parse_power_boost u bios).2.power.boost.entries
        = array_for (envy_bios_parse_power_boost u bios).2.power.boost.entriesnum
            (boost_entry u bios (envy_bios_parse_power_boost u bios).2.power.boost)
            bios.power.boost.entries := by
  unfold envy_bios_parse_power_boost
  dsimp only
  split
  · next h => exact ⟨rfl, h, rfl⟩
  · next h => exact absurd hv h

theorem boost_entry_offset (u : indeterminate) (bios : envy_bios) (boost : envy_bios_power_boost)
    (i : Nat)
    (e : envy_bios_power_boost_entry) :
    (boost_entry u bios boost i e).offset
        = (boost.offset + boost.hlen + i * (boost.rlen + boost.snr * boost.ssz)) % 65536
    ∧ (boost_entry u bios boost i e).entries
        = array_for boost.snr (boost_subentry bios boost (boost_entry u bios boost i e).offset)
            (malloc boost.snr (u.subentries i)) := ⟨rfl, rfl⟩

theorem boost_subentry_offset (bios : envy_bios) (boost : envy_bios_power_boost) (data j : Nat)
    (sub : envy_bios_power_boost_subentry) :
    (boost_subentry bios boost data j sub).offset = (data + boost.rlen + j * boost.ssz) % 65536 :=
  rfl

/-- C3 (amended): on a table whose version byte is `0x11` the boost decoder
returns 0, writes exactly the entries `0 .. entriesnum - 1` (storage beyond
them is left as it was), each with exactly `snr` subentries; entry `i` records
the offset `offset + hlen + i * (rlen + snr * ssz)` truncated to 16 bits, and
subentry `j` of it the offset `entry offset + rlen + j * ssz` truncated to 16
bits; both are the exact sums whenever the sum is below 65536. -/
theorem boost_layout_mod (u : indeterminate) (bios : envy_bios)
    (hv : (bios_u8 bios (bios.power.boost.offset + 0x0) bios.power.boost.version).2 = 0x11) :
    let r := (envy_bios_parse_power_boost u bios).2.power.boost
    (envy_bios_parse_power_boost u bios).1 = 0
    ∧ (r.entries.take r.entriesnum).length = r.entriesnum
    ∧ r.entries.length = max bios.power.boost.entries.length r.entriesnum
    ∧ (∀ i, r.entriesnum ≤ i → r.entries[i]? = bios.power.boost.entries[i]?)
    ∧ (∀ i, i < r.entriesnum → ∃ e, r.entries[i]? = some e
        ∧ e.offset = (r.offset + r.hlen + i * (r.rlen + r.snr * r.ssz)) % 65536
        ∧ (r.offset + r.hlen + i * (r.rlen + r.snr * r.ssz) < 65536 →
            e.offset = r.offset + r.hlen + i * (r.rlen + r.snr * r.ssz))
        ∧ e.entries.length = r.snr
        ∧ ∀ j, j < r.snr → ∃ sub, e.entries[j]? = some sub
            ∧ sub.offset = (e.offset + r.rlen + j * r.ssz) % 65536
            ∧ (e.offset + r.rlen + j * r.ssz < 65536 →
                sub.offset = e.offset + r.rlen + j * r.ssz)) := by
  intro r
  obtain ⟨hret, -, hent⟩ := parse_power_boost_supported u bios hv
  have hlen : r.entries.length = max bios.power.boost.entries.length r.entriesnum := by
    show (envy_bios_parse_power_boost u bios).2.power.boost.entries.length = _
    rw [hent, array_for_length]
  refine ⟨hret, ?_, hlen, ?_, ?_⟩
  · rw [List.length_take, hlen]; omega
  · intro i hi
    show (envy_bios_parse_power_boost u bios).2.power.boost.entries[i]? = _
    rw [hent, array_for_getElem?_ge _ _ _ _ hi]
  · intro i hi
    refine ⟨boost_entry u bios r i (bios.power.boost.entries.getD i default), ?_, ?_, ?_, ?_, ?_⟩
    · show (envy_bios_parse_power_boost u bios).2.power.boost.entries[i]? = _
      rw [hent, array_for_getElem?_lt _ _ _ _ hi]
    · exact (boost_entry_offset u bios r i _).1
    · intro hlt
      rw [(boost_entry_offset u bios r i _).1, Nat.mod_eq_of_lt hlt]
    · rw [(boost_entry_offset u bios r i _).2, array_for_length, malloc_length]; omega
    · intro j hj
      refine ⟨boost_subentry bios r (boost_entry u bios r i
        (bios.power.boost.entries.getD i default)).offset j ((malloc r.snr (u.subentries i)).getD j default),
        ?_, ?_, ?_⟩
      · rw [(boost_entry_offset u bios r i _).2, array_for_getElem?_lt _ _ _ _ hj]
      · exact boost_subentry_offset bios r _ j _
      · intro hlt
        rw [boost_subentry_offset, Nat.mod_eq_of_lt hlt]

/-- C3, as stated, fails: for the table at offset 1 with two entries of stride
`255 + 255 * 255`, the second entry records offset 0, while
`offset + hlen + 1 * (rlen + snr * ssz)` is 65536. -/
theorem boost_offset_wraps :
    (envy_bios_parse_power_boost uninit_5a bios_boost_wrap).2.power.boost.version = 0x11
    ∧ (envy_bios_parse_power_boost uninit_5a bios_boost_wrap).2.power.boost.entriesnum = 2
    ∧ ((envy_bios_parse_power_boost uninit_5a bios_boost_wrap).2.power.boost.entries.map
        (fun e => e.offset)) = [256, 0]
    ∧ 1 + 255 + 1 * (255 + 255 * 255) = 65536
    ∧ ¬ (∀ i, i < (envy_bios_parse_power_boost uninit_5a bios_boost_wrap).2.power.boost.entriesnum →
          ∃ e, (envy_bios_parse_power_boost uninit_5a bios_boost_wrap).2.power.boost.entries[i]? = some e
            ∧ e.offset = (envy_bios_parse_power_boost uninit_5a bios_boost_wrap).2.power.boost.offset
              + (envy_bios_parse_power_boost uninit_5a bios_boost_wrap).2.power.boost.hlen
              + i * ((envy_bios_parse_power_boost uninit_5a bios_boost_wrap).2.power.boost.rlen
                + (envy_bios_parse_power_boost uninit_5a bios_boost_wrap).2.power.boost.snr
                  * (envy_bios_parse_power_boost uninit_5a bios_boost_wrap).2.power.boost.ssz)) := by
  refine ⟨by decide, by decide, by decide, by decide, ?_⟩
  intro h
  obtain ⟨e, he, hoff⟩ := h 1 (by decide)
  have h1 : (envy_bios_parse_power_boost uninit_5a bios_boost_wrap).2.power.boost.entries[1]?.map
      (fun e => e.offset) = some 0 := by decide
  rw [he] at h1
  simp only [Option.map_some', Option.some.injEq] at h1
  rw [h1] at hoff
  revert hoff
  decide

/-- C3 (amended), on the table of the specification's scenario: one entry at
offset `2 + 6 = 8` with two subentries at offsets 12 and 18. -/
theorem boost_layout_mod_witness :
    (envy_bios_parse_power_boost uninit_5a bios_boost_small).1 = 0
    ∧ (envy_bios_parse_power_boost uninit_5a bios_boost_small).2.power.boost.entries.length = 1
    ∧ (envy_bios_parse_power_boost uninit_5a bios_boost_small).2.power.boost.entries.map
        (fun e => (e.offset, e.entries.map (fun sub => sub.offset))) = [(8, [12, 18])] := by
  have h := boost_layout_mod uninit_5a bios_boost_small (by decide)
  refine ⟨h.1, ?_, by decide⟩
  rw [h.2.2.1]; decide

/-! ## The CSTEP decoder -/

theorem parse_power_cstep_supported (u : indeterminate) (bios : envy_bios)
    (hv : (bios_u8 bios (bios.power.cstep.offset + 0x0) bios.power.cstep.version).2 = 0x10) :
    (envy_bios_parse_power_cstep u bios).1 = 0
    ∧ (envy_bios_parse_power_cstep u bios).2.power.cstep.version = 0x10
    ∧ (envy_bios_parse_power_cstep u bios).2.power.cstep.ent1
        = array_for (envy_bios_parse_power_cstep u bios).2.power.cstep.entriesnum
            (cstep_entry1 u bios (envy_bios_parse_power_cstep u bios).2.power.cstep)
            bios.power.cstep.ent1
    ∧ (envy_bios_parse_power_cstep u bios).2.power.cstep.ent2
        = array_for (envy_bios_parse_power_cstep u bios).2.power.cstep.snr
            (cstep_entry2 bios (envy_bios_parse_power_cstep u bios).2.power.cstep)
            (malloc (envy_bios_parse_power_cstep u bios).2.power.cstep.snr u.ent2) := by
  unfold envy_bios_parse_power_cstep
  dsimp only
  split
  · next h => exact ⟨rfl, h, rfl, rfl⟩
  · next h => exact absurd hv h

theorem cstep_entry2_valid (bios : envy_bios) (cstep : envy_bios_power_cstep) (i : Nat)
    (e : envy_bios_power_cstep_entry2) :
    (cstep_entry2 bios cstep i e).valid
        = (if (cstep_entry2 bios cstep i e).freq > 0 then 1 else 0)
    ∧ (cstep_entry2 bios cstep i e).offset
        = (cstep.offset + cstep.hlen + cstep.entriesnum * cstep.rlen + i * cstep.ssz) % 65536 :=
  ⟨rfl, rfl⟩

/-- C4: on a table whose version byte is `0x10` the c-step decoder returns 0,
writes exactly the Entries1 records `0 .. entriesnum - 1` (storage beyond
them is left as it was) and produces exactly `snr` Entries2 records; record
`i` of Entries2 sits at index `i` whatever its flag, and its `valid` flag is 1
exactly when its frequency is positive and 0 exactly when it is 0. -/
theorem cstep_counts_and_valid (u : indeterminate) (bios : envy_bios)
    (hv : (bios_u8 bios (bios.power.cstep.offset + 0x0) bios.power.cstep.version).2 = 0x10) :
    let r := (envy_bios_parse_power_cstep u bios).2.power.cstep
    (envy_bios_parse_power_cstep u bios).1 = 0
    ∧ (r.ent1.take r.entriesnum).length = r.entriesnum
    ∧ r.ent1.length = max bios.power.cstep.ent1.length r.entriesnum
    ∧ (∀ i, r.entriesnum ≤ i → r.ent1[i]? = bios.power.cstep.ent1[i]?)
    ∧ r.ent2.length = r.snr
    ∧ (∀ i, i < r.snr → ∃ e, r.ent2[i]? = some e
        ∧ e.offset = (r.offset + r.hlen + r.entriesnum * r.rlen + i * r.ssz) % 65536
        ∧ (e.valid = 1 ↔ e.freq > 0) ∧ (e.valid = 0 ↔ e.freq = 0)) := by
  intro r
  obtain ⟨hret, -, h1, h2⟩ := parse_power_cstep_supported u bios hv
  have hlen : r.ent1.length = max bios.power.cstep.ent1.length r.entriesnum := by
    show (envy_bios_parse_power_cstep u bios).2.power.cstep.ent1.length = _
    rw [h1, array_for_length]
  refine ⟨hret, ?_, hlen, ?_, ?_, ?_⟩
  · rw [List.length_take, hlen]; omega
  · intro i hi
    show (envy_bios_parse_power_cstep u bios).2.power.cstep.ent1[i]? = _
    rw [h1, array_for_getElem?_ge _ _ _ _ hi]
  · show (envy_bios_parse_power_cstep u bios).2.power.cstep.ent2.length = _
    rw [h2, array_for_length, malloc_length]; exact Nat.max_self _
  · intro i hi
    refine ⟨cstep_entry2 bios r i ((malloc r.snr u.ent2).getD i default), ?_, ?_, ?_, ?_⟩
    · show (envy_bios_parse_power_cstep u bios).2.power.cstep.ent2[i]? = _
      rw [h2, array_for_getElem?_lt _ _ _ _ hi]
    · exact (cstep_entry2_valid bios r i _).2
    · rw [(cstep_entry2_valid bios r i _).1]
      split <;> simp_all
    · rw [(cstep_entry2_valid bios r i _).1]
      split
      · next h => simp only [one_ne_zero, false_iff]; omega
      · next h => simp only [true_iff]; omega

/-- C4, on a table with one Entries1 record and two Entries2 records of
frequencies 0 and 300: both Entries2 records are kept, with flags 0 and 1. -/
theorem cstep_counts_and_valid_witness :
    (envy_bios_parse_power_cstep uninit_5a bios_cstep_small).1 = 0
    ∧ (envy_bios_parse_power_cstep uninit_5a bios_cstep_small).2.power.cstep.ent1.length = 1
    ∧ (envy_bios_parse_power_cstep uninit_5a bios_cstep_small).2.power.cstep.ent2.length = 2
    ∧ (envy_bios_parse_power_cstep uninit_5a bios_cstep_small).2.power.cstep.ent2.map
        (fun e => (e.freq, e.valid)) = [(0, 0), (300, 1)] := by
  have h := cstep_counts_and_valid uninit_5a bios_cstep_small (by decide)
  refine ⟨h.1, ?_, ?_, by decide⟩
  · rw [h.2.2.1]; decide
  · rw [h.2.2.2.2.1]; decide

/-! ## Unsupported versions and absent tables -/

theorem parse_power_boost_unsupported (u : indeterminate) (bios : envy_bios)
    (hv : (bios_u8 bios (bios.power.boost.offset + 0x0) bios.power.boost.version).2 ≠ 0x11) :
    envy_bios_parse_power_boost u bios = (-EINVAL, { bios with power := { bios.power with
      boost := { bios.power.boost with
        version := (bios_u8 bios (bios.power.boost.offset + 0x0)
          bios.power.boost.version).2 } } }) := by
  unfold envy_bios_parse_power_boost
  dsimp only
  rw [if_neg hv]

theorem parse_power_cstep_unsupported (u : indeterminate) (bios : envy_bios)
    (hv : (bios_u8 bios (bios.power.cstep.offset + 0x0) bios.power.cstep.version).2 ≠ 0x10) :
    envy_bios_parse_power_cstep u bios = (-EINVAL, { bios with power := { bios.power with
      cstep := { bios.power.cstep with
        version := (bios_u8 bios (bios.power.cstep.offset + 0x0)
          bios.power.cstep.version).2 } } }) := by
  unfold envy_bios_parse_power_cstep
  dsimp only
  rw [if_neg hv]

/-- C5: when the version byte the decoder sees is not `0x11` (boost) or not
`0x10` (c-step), the decoder returns `-EINVAL` and the model after the call
is the model before it with that table's `version` field set to the byte:
`hlen`, `rlen`, `ssz`, `snr`, `entriesnum`, `valid` and the record sequences
are as they were, and no record is decoded. -/
theorem unsupported_version_keeps_table (u : indeterminate) (bios : envy_bios) :
    ((bios_u8 bios (bios.power.boost.offset + 0x0) bios.power.boost.version).2 ≠ 0x11 →
      envy_bios_parse_power_boost u bios = (-EINVAL, { bios with power := { bios.power with
        boost := { bios.power.boost with
          version := (bios_u8 bios (bios.power.boost.offset + 0x0)
            bios.power.boost.version).2 } } }))
    ∧ ((bios_u8 bios (bios.power.cstep.offset + 0x0) bios.power.cstep.version).2 ≠ 0x10 →
      envy_bios_parse_power_cstep u bios = (-EINVAL, { bios with power := { bios.power with
        cstep := { bios.power.cstep with
          version := (bios_u8 bios (bios.power.cstep.offset + 0x0)
            bios.power.cstep.version).2 } } })) :=
  ⟨parse_power_boost_unsupported u bios, parse_power_cstep_unsupported u bios⟩

/-- C5, on two images: the boost decoder on a table of version `0x10` and the
c-step decoder on a table of version `0x00` both return `-22` and change
nothing but the version field. -/
theorem unsupported_version_keeps_table_witness :
    envy_bios_parse_power_boost uninit_5a bios_cstep_small
        = (-22, { bios_cstep_small with power := { power_zero with
            boost := { power_zero.boost with version := 0x10 } } })
    ∧ envy_bios_parse_power_cstep uninit_5a bios_boost_small
        = (-22, bios_boost_small) := by
  refine ⟨?_, ?_⟩
  · exact (unsupported_version_keeps_table uninit_5a bios_cstep_small).1 (by decide)
  · exact (unsupported_version_keeps_table uninit_5a bios_boost_small).2 (by decide)

/-- The walk ends within ten calls of `parse_at`, for every directory version,
and changes slot offsets only. -/
theorem parse_bit_P_walk_total (bios : envy_bios) (bit : envy_bios_bit_entry) (fuel : Nat)
    (power : envy_bios_power) (hfuel : 10 ≤ fuel) (hbit : power.bit = some bit) :
    ∃ power', parse_bit_P_walk bios fuel power 0 = some power'
      ∧ clear_offsets power' = clear_offsets power := by
  by_cases h1 : bit.version = 1
  · obtain ⟨power', hw, hclr, -⟩ := parse_bit_P_walk_spec bios bit p1_tbls (Or.inl ⟨h1, rfl⟩)
      p1_tbls.length 0 fuel power (by omega) (by simp [p1_tbls]; omega) hbit
    exact ⟨power', by exact_mod_cast hw, hclr⟩
  · by_cases h2 : bit.version = 2
    · obtain ⟨power', hw, hclr, -⟩ := parse_bit_P_walk_spec bios bit p2_tbls (Or.inr ⟨h2, rfl⟩)
        p2_tbls.length 0 fuel power (by omega) (by simp [p2_tbls]; omega) hbit
      exact ⟨power', by exact_mod_cast hw, hclr⟩
    · obtain ⟨f, rfl⟩ : ∃ f, fuel = f + 1 := ⟨fuel - 1, by omega⟩
      refine ⟨power, ?_, rfl⟩
      simp [parse_bit_P_walk, parse_at, hbit, h1, h2, EINVAL]

theorem clear_offsets_boost (p p0 : envy_bios_power) (h : clear_offsets p = clear_offsets p0) :
    p.boost = { p0.boost with offset := p.boost.offset } := by
  rcases p with ⟨_, _, _, _, _, _, _, _, ⟨_, _, _, _, _, _, _, _, _⟩, _⟩
  rcases p0 with ⟨_, _, _, _, _, _, _, _, ⟨_, _, _, _, _, _, _, _, _⟩, _⟩
  simp only [clear_offsets, envy_bios_power.mk.injEq, envy_bios_power_boost.mk.injEq] at h
  simp [h]

theorem clear_offsets_cstep (p p0 : envy_bios_power) (h : clear_offsets p = clear_offsets p0) :
    p.cstep = { p0.cstep with offset := p.cstep.offset } := by
  rcases p with ⟨_, _, _, _, _, _, _, _, _, ⟨_, _, _, _, _, _, _, _, _, _⟩⟩
  rcases p0 with ⟨_, _, _, _, _, _, _, _, _, ⟨_, _, _, _, _, _, _, _, _, _⟩⟩
  simp only [clear_offsets, envy_bios_power.mk.injEq, envy_bios_power_cstep.mk.injEq] at h
  simp [h]

theorem p1_tbls_no_boost_cstep :
    ∀ s ∈ p1_tbls, s.ptr ≠ P_ptr.boost ∧ s.ptr ≠ P_ptr.cstep := by decide

/-- C6 (amended): the parse returns 0 and runs both decoders whatever the slot
offsets are.  When the BOOST (respectively CSTEP) offset is 0 after the walk,
the decoder reads its version byte at image offset 0, and when that byte is
not `0x11` (respectively `0x10`) the table after the parse is the table
before it, up to its offset and version fields: no record is decoded.  A
version 1 directory leaves the BOOST and CSTEP offsets as they were. -/
theorem absent_subtable_version_gate (u : indeterminate) (fuel : Nat) (bios : envy_bios)
    (bit : envy_bios_bit_entry)
    (hfuel : 10 ≤ fuel) :
    ∃ bios', envy_bios_parse_bit_P fuel u bios bit = some (0, bios')
      ∧ (bios'.power.boost.offset = 0 →
          (bios_u8 bios 0 bios.power.boost.version).2 ≠ 0x11 →
          bios'.power.boost = { bios.power.boost with
            offset := 0, version := (bios_u8 bios 0 bios.power.boost.version).2 })
      ∧ (bios'.power.cstep.offset = 0 →
          (bios_u8 bios 0 bios.power.cstep.version).2 ≠ 0x10 →
          bios'.power.cstep = { bios.power.cstep with
            offset := 0, version := (bios_u8 bios 0 bios.power.cstep.version).2 })
      ∧ (bit.version = 1 → bios'.power.boost.offset = bios.power.boost.offset
          ∧ bios'.power.cstep.offset = bios.power.cstep.offset) := by
  obtain ⟨power', hw, hclr⟩ := parse_bit_P_walk_total bios bit fuel
    { bios.power with bit := some bit } hfuel rfl
  have hgb : ∀ b : envy_bios, (envy_bios_parse_power_cstep u
      (envy_bios_parse_power_boost u b).2).2.power.boost.offset = b.power.boost.offset := fun b =>
    (parse_power_cstep_get u (envy_bios_parse_power_boost u b).2 .boost).trans
      (parse_power_boost_get u b .boost)
  have hgc : ∀ b : envy_bios, (envy_bios_parse_power_cstep u
      (envy_bios_parse_power_boost u b).2).2.power.cstep.offset = b.power.cstep.offset := fun b =>
    (parse_power_cstep_get u (envy_bios_parse_power_boost u b).2 .cstep).trans
      (parse_power_boost_get u b .cstep)
  refine ⟨_, parse_bit_P_of_walk u fuel bios bit power' hw, ?_, ?_, ?_⟩
  · intro hoff hv
    have hoff' : power'.boost.offset = 0 := (hgb _).symm.trans hoff
    have hb : power'.boost = { bios.power.boost with offset := 0 } := by
      rw [clear_offsets_boost _ _ hclr, hoff']
    have hv' : (bios_u8 { bios with power := power' }
        (({ bios with power := power' } : envy_bios).power.boost.offset + 0x0)
        ({ bios with power := power' } : envy_bios).power.boost.version).2 ≠ 0x11 := by
      show (bios_u8 bios (power'.boost.offset + 0) power'.boost.version).2 ≠ 0x11
      rw [hb]
      exact hv
    rw [(parse_power_cstep_frame u _).2.1, parse_power_boost_unsupported u _ hv']
    show ({ power'.boost with
      version := (bios_u8 bios (power'.boost.offset + 0) power'.boost.version).2 }
        : envy_bios_power_boost) = _
    rw [hb]
  · intro hoff hv
    have hoff' : power'.cstep.offset = 0 := (hgc _).symm.trans hoff
    have hc : power'.cstep = { bios.power.cstep with offset := 0 } := by
      rw [clear_offsets_cstep _ _ hclr, hoff']
    have hc' : (envy_bios_parse_power_boost u { bios with power := power' }).2.power.cstep
        = { bios.power.cstep with offset := 0 } := by
      rw [(parse_power_boost_frame u _).2.1]
      exact hc
    have hd : (envy_bios_parse_power_boost u { bios with power := power' }).2.data = bios.data :=
      (parse_power_boost_frame u _).1
    generalize (envy_bios_parse_power_boost u { bios with power := power' }).2 = b at hc' hd ⊢
    have hv' : (bios_u8 b (b.power.cstep.offset + 0x0) b.power.cstep.version).2 ≠ 0x10 := by
      rw [hc']
      simpa [bios_u8, hd] using hv
    rw [parse_power_cstep_unsupported u _ hv']
    show ({ b.power.cstep with
      version := (bios_u8 b (b.power.cstep.offset + 0) b.power.cstep.version).2 }
        : envy_bios_power_cstep) = _
    rw [hc']
    simp [bios_u8, hd]
  · intro h1
    obtain ⟨power2, hw2, -, hq⟩ := parse_bit_P_walk_spec bios bit p1_tbls (Or.inl ⟨h1, rfl⟩)
      p1_tbls.length 0 fuel { bios.power with bit := some bit } (by omega)
      (by simp [p1_tbls]; omega) rfl
    have hw2' : parse_bit_P_walk bios fuel { bios.power with bit := some bit } 0
        = some power2 := by exact_mod_cast hw2
    rw [hw] at hw2'
    cases hw2'
    rw [hgb, hgc]
    refine ⟨?_, ?_⟩
    · refine (hq .boost).2 ?_
      intro j s _ hs hptr
      exact absurd hptr (p1_tbls_no_boost_cstep s (List.getElem?_mem hs)).1
    · refine (hq .cstep).2 ?_
      intro j s _ hs hptr
      exact absurd hptr (p1_tbls_no_boost_cstep s (List.getElem?_mem hs)).2

/-- C6, as stated, fails: under a version 1 directory the CSTEP offset stays 0,
yet the c-step decoder runs at image offset 0, finds the byte `0x10` there and
decodes one Entries2 record. -/
theorem absent_cstep_still_decoded :
    ∃ bios', envy_bios_parse_bit_P 10 uninit_5a bios_sig10 bit_v1_tail = some (0, bios')
      ∧ bios'.power.perf.offset = 0x1234
      ∧ bios'.power.cstep.offset = 0
      ∧ bios'.power.cstep.snr = 1
      ∧ bios_sig10.power.cstep.ent2 = []
      ∧ bios'.power.cstep.ent2 = [⟨6, 300, 7, 8, 9, 1⟩] :=
  ⟨_, rfl, by decide, by decide, by decide, by decide, by decide⟩

/-- C6 (amended), on an image whose first byte is `0x20` under a version 1
directory: both tables end with no record. -/
theorem absent_subtable_version_gate_witness :
    ∃ bios', envy_bios_parse_bit_P 10 uninit_5a bios_perf bit_v1_short = some (0, bios')
      ∧ bios'.power.boost = { power_zero.boost with version := 0x20 }
      ∧ bios'.power.cstep = { power_zero.cstep with version := 0x20 } := by
  obtain ⟨bios', hp, hb, hc, hv1⟩ :=
    absent_subtable_version_gate uninit_5a 10 bios_perf bit_v1_short (le_refl _)
  exact ⟨bios', hp, hb (hv1 rfl).1 (by decide), hc (hv1 rfl).2 (by decide)⟩

/-! ## Header validity -/

theorem nat_lor_eq_zero (m n : Nat) : m ||| n = 0 ↔ m = 0 ∧ n = 0 := by
  constructor
  · intro h
    constructor
    · apply Nat.eq_of_testBit_eq
      intro i
      have := congrArg (fun x => x.testBit i) h
      simp only [Nat.testBit_or, Nat.zero_testBit, Bool.or_eq_false_iff] at this
      simp [this.1]
    · apply Nat.eq_of_testBit_eq
      intro i
      have := congrArg (fun x => x.testBit i) h
      simp only [Nat.testBit_or, Nat.zero_testBit, Bool.or_eq_false_iff] at this
      simp [this.2]
  · rintro ⟨rfl, rfl⟩; rfl

theorem int_lor_eq_zero (a b : Int) : Int.lor a b = 0 ↔ a = 0 ∧ b = 0 := by
  cases a with
  | ofNat m =>
    cases b with
    | ofNat n =>
      show ((m ||| n : Nat) : Int) = 0 ↔ ((m : Int) = 0 ∧ (n : Int) = 0)
      rw [Int.natCast_eq_zero, Int.natCast_eq_zero, Int.natCast_eq_zero]
      exact nat_lor_eq_zero m n
    | negSucc n => simp [Int.lor]
  | negSucc m =>
    cases b with
    | ofNat n => simp [Int.lor]
    | negSucc n => simp [Int.lor]

/-- The code returned by a byte read does not depend on the destination. -/
theorem bios_u8_code (bios : envy_bios) (offs res : Nat) :
    (bios_u8 bios offs res).1 = 0 ↔ offs + 1 ≤ bios.data.length := by
  unfold bios_u8
  split
  · next h => simp [h]
  · next h => simp [h, EFAULT]

theorem parse_power_boost_valid (u : indeterminate) (bios : envy_bios)
    (hv : (bios_u8 bios (bios.power.boost.offset + 0x0) bios.power.boost.version).2 = 0x11) :
    (envy_bios_parse_power_boost u bios).2.power.boost.valid
      = if bios.power.boost.offset + 6 ≤ bios.data.length then 1 else 0 := by
  unfold envy_bios_parse_power_boost
  dsimp only
  rw [if_pos hv]
  dsimp only
  simp only [int_lor_eq_zero, bios_u8_code, true_and]
  split <;> split <;> first | rfl | omega

theorem parse_power_cstep_valid (u : indeterminate) (bios : envy_bios)
    (hv : (bios_u8 bios (bios.power.cstep.offset + 0x0) bios.power.cstep.version).2 = 0x10) :
    (envy_bios_parse_power_cstep u bios).2.power.cstep.valid
      = if bios.power.cstep.offset + 6 ≤ bios.data.length then 1 else 0 := by
  unfold envy_bios_parse_power_cstep
  dsimp only
  rw [if_pos hv]
  dsimp only
  simp only [int_lor_eq_zero, bios_u8_code, true_and]
  split <;> split <;> first | rfl | omega

/-- C7 (amended): when the version byte is the supported one and one of the five
header reads fails, the decoder marks the table invalid (`valid = 0`) and
returns 0; it does not stop there: the record loops run over the header
fields as they stand after the reads. -/
theorem header_failure_marks_invalid (u : indeterminate) (bios : envy_bios) :
    ((bios_u8 bios (bios.power.boost.offset + 0x0) bios.power.boost.version).2 = 0x11 →
      (∃ k, 1 ≤ k ∧ k ≤ 5 ∧ (bios_u8 bios (bios.power.boost.offset + k) 0).1 ≠ 0) →
      (envy_bios_parse_power_boost u bios).1 = 0
      ∧ (envy_bios_parse_power_boost u bios).2.power.boost.valid = 0
      ∧ (envy_bios_parse_power_boost u bios).2.power.boost.entries
          = array_for (envy_bios_parse_power_boost u bios).2.power.boost.entriesnum
              (boost_entry u bios (envy_bios_parse_power_boost u bios).2.power.boost)
              bios.power.boost.entries)
    ∧ ((bios_u8 bios (bios.power.cstep.offset + 0x0) bios.power.cstep.version).2 = 0x10 →
      (∃ k, 1 ≤ k ∧ k ≤ 5 ∧ (bios_u8 bios (bios.power.cstep.offset + k) 0).1 ≠ 0) →
      (envy_bios_parse_power_cstep u bios).1 = 0
      ∧ (envy_bios_parse_power_cstep u bios).2.power.cstep.valid = 0
      ∧ (envy_bios_parse_power_cstep u bios).2.power.cstep.ent1
          = array_for (envy_bios_parse_power_cstep u bios).2.power.cstep.entriesnum
              (cstep_entry1 u bios (envy_bios_parse_power_cstep u bios).2.power.cstep)
              bios.power.cstep.ent1
      ∧ (envy_bios_parse_power_cstep u bios).2.power.cstep.ent2
          = array_for (envy_bios_parse_power_cstep u bios).2.power.cstep.snr
              (cstep_entry2 bios (envy_bios_parse_power_cstep u bios).2.power.cstep)
              (malloc (envy_bios_parse_power_cstep u bios).2.power.cstep.snr u.ent2)) := by
  refine ⟨?_, ?_⟩
  · rintro hv ⟨k, hk1, hk5, hk⟩
    obtain ⟨hret, -, hent⟩ := parse_power_boost_supported u bios hv
    refine ⟨hret, ?_, hent⟩
    rw [parse_power_boost_valid u bios hv, if_neg]
    intro hle
    exact hk ((bios_u8_code bios _ 0).2 (by omega))
  · rintro hv ⟨k, hk1, hk5, hk⟩
    obtain ⟨hret, -, h1, h2⟩ := parse_power_cstep_supported u bios hv
    refine ⟨hret, ?_, h1, h2⟩
    rw [parse_power_cstep_valid u bios hv, if_neg]
    intro hle
    exact hk ((bios_u8_code bios _ 0).2 (by omega))

/-- C7, as stated, fails: on a CSTEP table whose `snr` byte lies beyond the end of
the image, the table is marked invalid and yet the Entries1 record 0 is read
and written (offset 2, power state 13). -/
theorem cstep_invalid_header_still_decodes :
    (bios_u8 bios_cstep_cut (bios_cstep_cut.power.cstep.offset + 0x0)
        bios_cstep_cut.power.cstep.version).2 = 0x10
    ∧ (bios_u8 bios_cstep_cut (bios_cstep_cut.power.cstep.offset + 0x5) 0).1 = -14
    ∧ (envy_bios_parse_power_cstep uninit_5a bios_cstep_cut).2.power.cstep.valid = 0
    ∧ bios_cstep_cut.power.cstep.ent1 = []
    ∧ (envy_bios_parse_power_cstep uninit_5a bios_cstep_cut).2.power.cstep.ent1 = [⟨2, 13, 0⟩] := by
  refine ⟨by decide, by decide, ?_, by decide, by decide⟩
  rw [parse_power_cstep_valid uninit_5a bios_cstep_cut (by decide)]
  decide

/-- C7 (amended), on the two cut headers: both tables end invalid, and both
decoders return 0. -/
theorem header_failure_marks_invalid_witness :
    (envy_bios_parse_power_boost uninit_5a bios_boost_cut).1 = 0
    ∧ (envy_bios_parse_power_boost uninit_5a bios_boost_cut).2.power.boost.valid = 0
    ∧ (envy_bios_parse_power_cstep uninit_5a bios_cstep_cut).1 = 0
    ∧ (envy_bios_parse_power_cstep uninit_5a bios_cstep_cut).2.power.cstep.valid = 0 := by
  have hb := (header_failure_marks_invalid uninit_5a bios_boost_cut).1 (by decide) ⟨4, by decide⟩
  have hc := (header_failure_marks_invalid uninit_5a bios_cstep_cut).2 (by decide) ⟨5, by decide⟩
  exact ⟨hb.1, hb.2.1, hc.1, hc.2.1⟩

/-! ## The resolver's failures -/

/-- C8 (amended): for a directory of version 1 or 2, `parse_at` with neither
selector (`idx = -1`, `offset = -1`) fails with `-ENOENT`, the code of
NotFound and not the `-EINVAL` of two selectors, reads nothing and changes
neither the model nor the name. -/
theorem parse_at_neither_selector (bios : envy_bios) (power : envy_bios_power)
    (bit : envy_bios_bit_entry) (name : Option String)
    (hbit : power.bit = some bit) (hver : bit.version = 1 ∨ bit.version = 2) :
    parse_at bios power (-1) (-1) name = some ⟨-ENOENT, power, name, []⟩
    ∧ -ENOENT ≠ -EINVAL := by
  refine ⟨?_, by decide⟩
  rcases hver with hv | hv <;>
    simp [parse_at, hbit, hv, parse_at_tbls]

/-- C8 (amended), on a version 1 directory. -/
theorem parse_at_neither_selector_witness :
    parse_at bios_perf { power_zero with bit := some bit_v1_short } (-1) (-1) (some "UNKNOWN")
      = some ⟨-2, { power_zero with bit := some bit_v1_short }, some "UNKNOWN", []⟩ :=
  (parse_at_neither_selector bios_perf { power_zero with bit := some bit_v1_short }
    bit_v1_short (some "UNKNOWN") rfl (Or.inl rfl)).1

/-- C8, as stated, fails: on a version 1 directory the call with neither selector
returns `-ENOENT` (-2), while the call with both selectors returns `-EINVAL`
(-22). -/
theorem parse_at_neither_is_enoent :
    (parse_at bios_perf { power_zero with bit := some bit_v1_short } (-1) (-1)
        (some "UNKNOWN")).map (fun r => r.ret) = some (-2)
    ∧ (parse_at bios_perf { power_zero with bit := some bit_v1_short } 0 0
        (some "UNKNOWN")).map (fun r => r.ret) = some (-22)
    ∧ EINVAL = 22 ∧ ENOENT = 2 := by
  decide

/-- C9: for every directory version, with both selectors supplied (`idx ≠ -1` and
`offset ≠ -1`) `parse_at` fails with `-EINVAL`, reads nothing and changes
neither the model nor the name. -/
theorem parse_at_both_selectors (bios : envy_bios) (power : envy_bios_power)
    (bit : envy_bios_bit_entry) (idx offset : Int) (name : Option String)
    (hbit : power.bit = some bit) (hidx : idx ≠ -1) (hoff : offset ≠ -1) :
    parse_at bios power idx offset name = some ⟨-EINVAL, power, name, []⟩ := by
  simp only [parse_at, hbit, parse_at_tbls]
  split
  · simp [hidx, hoff]
  · split
    · simp [hidx, hoff]
    · rfl

/-- C9, on a version 1 directory with `idx = 0` and `offset = 0`, each of which
alone resolves the PERFORMANCE slot. -/
theorem parse_at_both_selectors_witness :
    parse_at bios_perf { power_zero with bit := some bit_v1_short } 0 0 (some "UNKNOWN")
        = some ⟨-22, { power_zero with bit := some bit_v1_short }, some "UNKNOWN", []⟩
    ∧ (parse_at bios_perf { power_zero with bit := some bit_v1_short } 0 (-1)
        (some "UNKNOWN")).map (fun r => r.ret) = some 0
    ∧ (parse_at bios_perf { power_zero with bit := some bit_v1_short } (-1) 0
        (some "UNKNOWN")).map (fun r => r.ret) = some 0 :=
  ⟨parse_at_both_selectors bios_perf { power_zero with bit := some bit_v1_short }
    bit_v1_short 0 0 (some "UNKNOWN") rfl (by decide) (by decide), by decide, by decide⟩

/-- C10 (amended): for a directory of version 1 or 2 and a selector naming a
known slot `s` that does not fit in the directory (`s.offset + 2 > t_len`),
`parse_at` fails with `-ENOENT`, the same code as for an offset that matches
no slot, performs no image read at all, and leaves the model and the name
unchanged. -/
theorem parse_at_truncated (bios : envy_bios) (power : envy_bios_power)
    (bit : envy_bios_bit_entry) (tbls : List P_known_tables) (k : Nat) (s : P_known_tables)
    (idx offset : Int) (name : Option String)
    (hbit : power.bit = some bit)
    (hver : (bit.version = 1 ∧ tbls = p1_tbls) ∨ (bit.version = 2 ∧ tbls = p2_tbls))
    (hs : tbls[k]? = some s)
    (hsel : (idx = (k : Int) ∧ offset = -1) ∨ (idx = -1 ∧ offset = (s.offset : Int)))
    (hlen : s.offset + 2 > bit.t_len) :
    parse_at bios power idx offset name = some ⟨-ENOENT, power, name, []⟩ := by
  rw [parse_at_select bios power bit tbls k s idx offset name hbit hver hs hsel, if_pos hlen]

/-- C10 (amended), on a four-byte version 1 directory: the slot at offset 4
does not fit, by index and by offset. -/
theorem parse_at_truncated_witness :
    parse_at bios_perf { power_zero with bit := some bit_v1_short } 1 (-1) (some "UNKNOWN")
        = some ⟨-2, { power_zero with bit := some bit_v1_short }, some "UNKNOWN", []⟩
    ∧ parse_at bios_perf { power_zero with bit := some bit_v1_short } (-1) 4 (some "UNKNOWN")
        = some ⟨-2, { power_zero with bit := some bit_v1_short }, some "UNKNOWN", []⟩ :=
  ⟨parse_at_truncated bios_perf { power_zero with bit := some bit_v1_short } bit_v1_short
      p1_tbls 1 ⟨0x04, .timing, "MEMORY TIMINGS"⟩ 1 (-1) (some "UNKNOWN") rfl
      (Or.inl ⟨rfl, rfl⟩) rfl (Or.inl ⟨rfl, rfl⟩) (by decide),
   parse_at_truncated bios_perf { power_zero with bit := some bit_v1_short } bit_v1_short
      p1_tbls 1 ⟨0x04, .timing, "MEMORY TIMINGS"⟩ (-1) 4 (some "UNKNOWN") rfl
      (Or.inl ⟨rfl, rfl⟩) rfl (Or.inr ⟨rfl, rfl⟩) (by decide)⟩

/-- C10, as stated, fails: on a four-byte version 1 directory the slot at
offset 4, which does not fit, and the offset 3, which matches no slot, fail
with the same code, -2. -/
theorem parse_at_truncated_same_code :
    (parse_at bios_perf { power_zero with bit := some bit_v1_short } (-1) 4
        (some "UNKNOWN")).map (fun r => r.ret) = some (-2)
    ∧ (parse_at bios_perf { power_zero with bit := some bit_v1_short } (-1) 3
        (some "UNKNOWN")).map (fun r => r.ret) = some (-2) := by
  decide

/-! ## Unmatched offsets, unsupported directory versions, index against offset -/

theorem parse_at_scan_no_match (tbls : List P_known_tables) (offset : Int)
    (hno : ∀ s ∈ tbls, (s.offset : Int) ≠ offset) :
    parse_at_scan tbls offset = tbls.length := by
  induction tbls with
  | nil => rfl
  | cons t ts ih =>
    have ht : (t.offset : Int) ≠ offset := hno t (List.mem_cons_self _ _)
    simp only [parse_at_scan, ht, ne_eq, not_false_eq_true, if_true, List.length_cons,
      ih (fun s hs => hno s (List.mem_cons_of_mem _ hs))]

/-- C11: for a directory of version 1 or 2, selecting by a byte offset
(`idx = -1`, `offset ≥ 0`) that is the offset of no slot of the layout makes
`parse_at` fail with `-ENOENT`, with no image read and the model and the name
as they were; and selecting by the offset of a slot that fits in the
directory never gives `-ENOENT`, and reports the slot's name. -/
theorem parse_at_unmatched_offset (bios : envy_bios) (power : envy_bios_power)
    (bit : envy_bios_bit_entry) (tbls : List P_known_tables) (name : Option String)
    (hbit : power.bit = some bit)
    (hver : (bit.version = 1 ∧ tbls = p1_tbls) ∨ (bit.version = 2 ∧ tbls = p2_tbls)) :
    (∀ offset : Int, 0 ≤ offset → (∀ s ∈ tbls, (s.offset : Int) ≠ offset) →
      parse_at bios power (-1) offset name = some ⟨-ENOENT, power, name, []⟩)
    ∧ (∀ s ∈ tbls, s.offset + 2 ≤ bit.t_len →
        ∃ r, parse_at bios power (-1) (s.offset : Int) name = some r ∧ r.ret ≠ -ENOENT
          ∧ r.name = name.map (fun _ => s.name)) := by
  refine ⟨?_, ?_⟩
  · intro offset hoff hno
    rw [parse_at_of_bit bios power bit tbls (-1) offset name hbit hver]
    unfold parse_at_tbls
    have h1 : ¬ ((-1 : Int) ≠ -1 ∧ offset ≠ -1) := by omega
    have h2 : offset > -1 := by omega
    have h3 : ((parse_at_scan tbls offset : Nat) : Int) < 0
        ∨ ((parse_at_scan tbls offset : Nat) : Int) ≥ (tbls.length : Int) := by
      rw [parse_at_scan_no_match tbls offset hno]; omega
    simp only [h1, h2, if_false, if_true, h3, dite_true]
  · intro s hs hlen
    obtain ⟨k, hk⟩ := List.getElem?_of_mem hs
    have hlen' : ¬ (s.offset + 2 > bit.t_len) := by omega
    refine ⟨_, parse_at_select bios power bit tbls k s (-1) (s.offset : Int) name hbit hver hk
      (Or.inr ⟨rfl, rfl⟩), ?_⟩
    rw [if_neg hlen']
    refine ⟨?_, rfl⟩
    show (bios_u16 bios (bit.t_offset + s.offset) (s.ptr.get power)).1 ≠ -ENOENT
    unfold bios_u16
    split <;> simp [ENOENT, EFAULT]

/-- C11, on a four-byte version 1 directory: offset 2 is no slot and gives -2
with nothing changed, offset 0 resolves to "PERFORMANCE". -/
theorem parse_at_unmatched_offset_witness :
    parse_at bios_perf { power_zero with bit := some bit_v1_short } (-1) 2 (some "UNKNOWN")
        = some ⟨-2, { power_zero with bit := some bit_v1_short }, some "UNKNOWN", []⟩
    ∧ (parse_at bios_perf { power_zero with bit := some bit_v1_short } (-1) 0
        (some "UNKNOWN")).map (fun r => (r.ret, r.name)) = some (0, some "PERFORMANCE") := by
  have h := parse_at_unmatched_offset bios_perf { power_zero with bit := some bit_v1_short }
    bit_v1_short p1_tbls (some "UNKNOWN") rfl (Or.inl ⟨rfl, rfl⟩)
  exact ⟨h.1 2 (by decide) (by decide), by decide⟩

/-- C12: for a directory version other than 1 and 2, `parse_at` fails with
`-EINVAL` for every pair of selectors, reads nothing and changes neither the
model nor the name; and `envy_bios_parse_bit_P` then leaves every slot offset
as it was. -/
theorem parse_at_unsupported_version (u : indeterminate) (bios : envy_bios)
    (bit : envy_bios_bit_entry)
    (hv1 : bit.version ≠ 1) (hv2 : bit.version ≠ 2) :
    (∀ (power : envy_bios_power) (idx offset : Int) (name : Option String),
      power.bit = some bit →
      parse_at bios power idx offset name = some ⟨-EINVAL, power, name, []⟩)
    ∧ (∀ fuel, 1 ≤ fuel →
        ∃ bios', envy_bios_parse_bit_P fuel u bios bit = some (0, bios')
          ∧ ∀ q : P_ptr, q.get bios'.power = q.get bios.power) := by
  refine ⟨?_, ?_⟩
  · intro power idx offset name hbit
    simp [parse_at, hbit, hv1, hv2]
  · intro fuel hfuel
    obtain ⟨f, rfl⟩ : ∃ f, fuel = f + 1 := ⟨fuel - 1, by omega⟩
    have hw : parse_bit_P_walk bios (f + 1) { bios.power with bit := some bit } 0
        = some { bios.power with bit := some bit } := by
      simp [parse_bit_P_walk, parse_at, hv1, hv2, EINVAL]
    refine ⟨_, parse_bit_P_of_walk u (f + 1) bios bit _ hw, ?_⟩
    intro q
    rw [parse_power_cstep_get, parse_power_boost_get]
    cases q <;> rfl

/-- C12, on a version 3 directory over a 64-byte image: the resolver returns
-22 and the parse records no slot. -/
theorem parse_at_unsupported_version_witness :
    parse_at bios_ramp { power_zero with bit := some bit_v3 } 0 (-1) (some "UNKNOWN")
        = some ⟨-22, { power_zero with bit := some bit_v3 }, some "UNKNOWN", []⟩
    ∧ ∃ bios', envy_bios_parse_bit_P 1 uninit_5a bios_ramp bit_v3 = some (0, bios')
        ∧ bios'.power.perf.offset = 0 ∧ bios'.power.boost.offset = 0
        ∧ bios'.power.cstep.offset = 0 := by
  have h := parse_at_unsupported_version uninit_5a bios_ramp bit_v3 (by decide) (by decide)
  refine ⟨h.1 _ 0 (-1) (some "UNKNOWN") rfl, ?_⟩
  obtain ⟨bios', hp, hq⟩ := h.2 1 (le_refl _)
  exact ⟨bios', hp, hq .perf, hq .boost, hq .cstep⟩

/-- C20: in the layout of a version 1 or 2 directory the slot offsets strictly
increase with the index (so they are pairwise distinct), and for every index
`k` of the layout `parse_at` by index `k` and `parse_at` by the byte offset of
slot `k` give the same result: the same code, name, model and reads. -/
theorem parse_at_index_offset_agree (bios : envy_bios) (power : envy_bios_power)
    (bit : envy_bios_bit_entry) (tbls : List P_known_tables) (k : Nat) (s : P_known_tables)
    (name : Option String)
    (hbit : power.bit = some bit)
    (hver : (bit.version = 1 ∧ tbls = p1_tbls) ∨ (bit.version = 2 ∧ tbls = p2_tbls))
    (hs : tbls[k]? = some s) :
    tbls.Pairwise (fun a b => a.offset < b.offset)
    ∧ parse_at bios power (k : Int) (-1) name = parse_at bios power (-1) (s.offset : Int) name := by
  refine ⟨(tbls_pairwise bit tbls hver).imp (fun h => h.1), ?_⟩
  rw [parse_at_select bios power bit tbls k s (k : Int) (-1) name hbit hver hs
      (Or.inl ⟨rfl, rfl⟩),
    parse_at_select bios power bit tbls k s (-1) (s.offset : Int) name hbit hver hs
      (Or.inr ⟨rfl, rfl⟩)]

/-- C20, on a full version 2 directory: index 7 and byte offset `0x30` both
resolve BOOST to `0x3231`. -/
theorem parse_at_index_offset_agree_witness :
    parse_at bios_ramp { power_zero with bit := some bit_v2_full } 7 (-1) (some "UNKNOWN")
        = parse_at bios_ramp { power_zero with bit := some bit_v2_full } (-1) 0x30
            (some "UNKNOWN")
    ∧ (parse_at bios_ramp { power_zero with bit := some bit_v2_full } (-1) 0x30
        (some "UNKNOWN")).map (fun r => (r.ret, r.name, r.power.boost.offset, r.reads))
          = some (0, some "BOOST", 0x3231, [0x30]) :=
  ⟨(parse_at_index_offset_agree bios_ramp { power_zero with bit := some bit_v2_full }
    bit_v2_full p2_tbls 7 ⟨0x30, .boost, "BOOST"⟩ (some "UNKNOWN") rfl (Or.inr ⟨rfl, rfl⟩)
    rfl).2, by decide⟩

/-! ## Header fields -/

theorem bios_u8_ok (bios : envy_bios) (offs res : Nat) (h : offs + 1 ≤ bios.data.length) :
    bios_u8 bios offs res = (0, bios.data.getD offs 0 % 256) := by
  simp [bios_u8, h]

theorem bios_u8_fail (bios : envy_bios) (offs res : Nat) (h : ¬ offs + 1 ≤ bios.data.length) :
    bios_u8 bios offs res = (-EFAULT, res) := by
  simp [bios_u8, h]

theorem bios_u16_ok (bios : envy_bios) (offs res : Nat) (h : offs + 2 ≤ bios.data.length) :
    bios_u16 bios offs res
      = (0, bios.data.getD offs 0 % 256 + 256 * (bios.data.getD (offs + 1) 0 % 256)) := by
  simp [bios_u16, h]

theorem bios_u16_fail (bios : envy_bios) (offs res : Nat) (h : ¬ offs + 2 ≤ bios.data.length) :
    bios_u16 bios offs res = (-EFAULT, res) := by
  simp [bios_u16, h]

theorem pstate_bits (f : Nat) : (f &&& 0x01e0) >>> 5 = (f / 32) % 16 := by
  apply Nat.eq_of_testBit_eq
  intro i
  simp only [Nat.testBit_shiftRight, Nat.testBit_and]
  have : (f / 32) % 16 = (f >>> 5) % 2 ^ 4 := by simp [Nat.shiftRight_eq_div_pow]
  rw [this, Nat.testBit_mod_two_pow, Nat.testBit_shiftRight]
  by_cases hi : i < 4
  · have : Nat.testBit 480 (5 + i) = true := by
      interval_cases i <;> decide
    simp [hi, this]
  · have : Nat.testBit 480 (5 + i) = false := by
      apply Nat.testBit_lt_two_pow
      calc 480 < 2 ^ 9 := by norm_num
        _ ≤ 2 ^ (5 + i) := Nat.pow_le_pow_right (by norm_num) (by omega)
    simp [hi, this]

/-- The header of a boost table of version `0x11` after the decoder. -/
theorem parse_power_boost_header (u : indeterminate) (bios : envy_bios)
    (hv : (bios_u8 bios (bios.power.boost.offset + 0x0) bios.power.boost.version).2 = 0x11) :
    (envy_bios_parse_power_boost u bios).2.power.boost.offset = bios.power.boost.offset
    ∧ (envy_bios_parse_power_boost u bios).2.power.boost.hlen
        = (bios_u8 bios (bios.power.boost.offset + 0x1) bios.power.boost.hlen).2
    ∧ (envy_bios_parse_power_boost u bios).2.power.boost.rlen
        = (bios_u8 bios (bios.power.boost.offset + 0x2) bios.power.boost.rlen).2
    ∧ (envy_bios_parse_power_boost u bios).2.power.boost.ssz
        = (bios_u8 bios (bios.power.boost.offset + 0x3) bios.power.boost.ssz).2
    ∧ (envy_bios_parse_power_boost u bios).2.power.boost.snr
        = (bios_u8 bios (bios.power.boost.offset + 0x4) bios.power.boost.snr).2
    ∧ (envy_bios_parse_power_boost u bios).2.power.boost.entriesnum
        = (bios_u8 bios (bios.power.boost.offset + 0x5) bios.power.boost.entriesnum).2 := by
  unfold envy_bios_parse_power_boost
  dsimp only
  split
  · exact ⟨rfl, rfl, rfl, rfl, rfl, rfl⟩
  · next h => exact absurd hv h

/-- The header of a c-step table of version `0x10` after the decoder. -/
theorem parse_power_cstep_header (u : indeterminate) (bios : envy_bios)
    (hv : (bios_u8 bios (bios.power.cstep.offset + 0x0) bios.power.cstep.version).2 = 0x10) :
    (envy_bios_parse_power_cstep u bios).2.power.cstep.offset = bios.power.cstep.offset
    ∧ (envy_bios_parse_power_cstep u bios).2.power.cstep.hlen
        = (bios_u8 bios (bios.power.cstep.offset + 0x1) bios.power.cstep.hlen).2
    ∧ (envy_bios_parse_power_cstep u bios).2.power.cstep.rlen
        = (bios_u8 bios (bios.power.cstep.offset + 0x2) bios.power.cstep.rlen).2
    ∧ (envy_bios_parse_power_cstep u bios).2.power.cstep.entriesnum
        = (bios_u8 bios (bios.power.cstep.offset + 0x3) bios.power.cstep.entriesnum).2
    ∧ (envy_bios_parse_power_cstep u bios).2.power.cstep.ssz
        = (bios_u8 bios (bios.power.cstep.offset + 0x4) bios.power.cstep.ssz).2
    ∧ (envy_bios_parse_power_cstep u bios).2.power.cstep.snr
        = (bios_u8 bios (bios.power.cstep.offset + 0x5) bios.power.cstep.snr).2 := by
  unfold envy_bios_parse_power_cstep
  dsimp only
  split
  · exact ⟨rfl, rfl, rfl, rfl, rfl, rfl⟩
  · next h => exact absurd hv h

/-- C15: for a boost table of version `0x11` the fields `hlen`, `rlen`, `ssz`,
`snr`, `entriesnum` are the bytes at table offset +1, +2, +3, +4, +5 (each
whenever that byte lies inside the image), for a c-step table of version
`0x10` the fields `hlen`, `rlen`, `entriesnum`, `ssz`, `snr` are the bytes at
+1, +2, +3, +4, +5, and in both decoders `valid` is 1 exactly when all five
header reads return 0, and 0 exactly when one of them fails. -/
theorem header_fields_and_valid (u : indeterminate) (bios : envy_bios) :
    ((bios_u8 bios (bios.power.boost.offset + 0x0) bios.power.boost.version).2 = 0x11 →
      (bios.power.boost.offset + 2 ≤ bios.data.length →
        (envy_bios_parse_power_boost u bios).2.power.boost.hlen
          = bios.data.getD (bios.power.boost.offset + 1) 0 % 256)
      ∧ (bios.power.boost.offset + 3 ≤ bios.data.length →
        (envy_bios_parse_power_boost u bios).2.power.boost.rlen
          = bios.data.getD (bios.power.boost.offset + 2) 0 % 256)
      ∧ (bios.power.boost.offset + 4 ≤ bios.data.length →
        (envy_bios_parse_power_boost u bios).2.power.boost.ssz
          = bios.data.getD (bios.power.boost.offset + 3) 0 % 256)
      ∧ (bios.power.boost.offset + 5 ≤ bios.data.length →
        (envy_bios_parse_power_boost u bios).2.power.boost.snr
          = bios.data.getD (bios.power.boost.offset + 4) 0 % 256)
      ∧ (bios.power.boost.offset + 6 ≤ bios.data.length →
        (envy_bios_parse_power_boost u bios).2.power.boost.entriesnum
          = bios.data.getD (bios.power.boost.offset + 5) 0 % 256)
      ∧ ((envy_bios_parse_power_boost u bios).2.power.boost.valid = 1 ↔
          ∀ k, 1 ≤ k → k ≤ 5 → (bios_u8 bios (bios.power.boost.offset + k) 0).1 = 0)
      ∧ ((envy_bios_parse_power_boost u bios).2.power.boost.valid = 0 ↔
          ∃ k, 1 ≤ k ∧ k ≤ 5 ∧ (bios_u8 bios (bios.power.boost.offset + k) 0).1 ≠ 0))
    ∧ ((bios_u8 bios (bios.power.cstep.offset + 0x0) bios.power.cstep.version).2 = 0x10 →
      (bios.power.cstep.offset + 2 ≤ bios.data.length →
        (envy_bios_parse_power_cstep u bios).2.power.cstep.hlen
          = bios.data.getD (bios.power.cstep.offset + 1) 0 % 256)
      ∧ (bios.power.cstep.offset + 3 ≤ bios.data.length →
        (envy_bios_parse_power_cstep u bios).2.power.cstep.rlen
          = bios.data.getD (bios.power.cstep.offset + 2) 0 % 256)
      ∧ (bios.power.cstep.offset + 4 ≤ bios.data.length →
        (envy_bios_parse_power_cstep u bios).2.power.cstep.entriesnum
          = bios.data.getD (bios.power.cstep.offset + 3) 0 % 256)
      ∧ (bios.power.cstep.offset + 5 ≤ bios.data.length →
        (envy_bios_parse_power_cstep u bios).2.power.cstep.ssz
          = bios.data.getD (bios.power.cstep.offset + 4) 0 % 256)
      ∧ (bios.power.cstep.offset + 6 ≤ bios.data.length →
        (envy_bios_parse_power_cstep u bios).2.power.cstep.snr
          = bios.data.getD (bios.power.cstep.offset + 5) 0 % 256)
      ∧ ((envy_bios_parse_power_cstep u bios).2.power.cstep.valid = 1 ↔
          ∀ k, 1 ≤ k → k ≤ 5 → (bios_u8 bios (bios.power.cstep.offset + k) 0).1 = 0)
      ∧ ((envy_bios_parse_power_cstep u bios).2.power.cstep.valid = 0 ↔
          ∃ k, 1 ≤ k ∧ k ≤ 5 ∧ (bios_u8 bios (bios.power.cstep.offset + k) 0).1 ≠ 0)) := by
  refine ⟨?_, ?_⟩
  · intro hv
    obtain ⟨-, h1, h2, h3, h4, h5⟩ := parse_power_boost_header u bios hv
    rw [h1, h2, h3, h4, h5, parse_power_boost_valid u bios hv]
    refine ⟨fun h => by rw [bios_u8_ok bios _ _ (by omega)],
      fun h => by rw [bios_u8_ok bios _ _ (by omega)],
      fun h => by rw [bios_u8_ok bios _ _ (by omega)],
      fun h => by rw [bios_u8_ok bios _ _ (by omega)],
      fun h => by rw [bios_u8_ok bios _ _ (by omega)], ?_, ?_⟩
    · constructor
      · intro h k hk1 hk5
        have hle : bios.power.boost.offset + 6 ≤ bios.data.length := by
          by_contra hn; rw [if_neg hn] at h; exact absurd h (by decide)
        exact (bios_u8_code bios _ 0).2 (by omega)
      · intro h
        have := (bios_u8_code bios _ 0).1 (h 5 (by omega) (le_refl _))
        rw [if_pos (by omega)]
    · constructor
      · intro h
        have hn : ¬ bios.power.boost.offset + 6 ≤ bios.data.length := by
          intro hle; rw [if_pos hle] at h; exact absurd h (by decide)
        exact ⟨5, by omega, le_refl _, fun h5 => hn (by
          have := (bios_u8_code bios _ 0).1 h5; omega)⟩
      · rintro ⟨k, hk1, hk5, hk⟩
        rw [if_neg]
        intro hle
        exact hk ((bios_u8_code bios _ 0).2 (by omega))
  · intro hv
    obtain ⟨-, h1, h2, h3, h4, h5⟩ := parse_power_cstep_header u bios hv
    rw [h1, h2, h3, h4, h5, parse_power_cstep_valid u bios hv]
    refine ⟨fun h => by rw [bios_u8_ok bios _ _ (by omega)],
      fun h => by rw [bios_u8_ok bios _ _ (by omega)],
      fun h => by rw [bios_u8_ok bios _ _ (by omega)],
      fun h => by rw [bios_u8_ok bios _ _ (by omega)],
      fun h => by rw [bios_u8_ok bios _ _ (by omega)], ?_, ?_⟩
    · constructor
      · intro h k hk1 hk5
        have hle : bios.power.cstep.offset + 6 ≤ bios.data.length := by
          by_contra hn; rw [if_neg hn] at h; exact absurd h (by decide)
        exact (bios_u8_code bios _ 0).2 (by omega)
      · intro h
        have := (bios_u8_code bios _ 0).1 (h 5 (by omega) (le_refl _))
        rw [if_pos (by omega)]
    · constructor
      · intro h
        have hn : ¬ bios.power.cstep.offset + 6 ≤ bios.data.length := by
          intro hle; rw [if_pos hle] at h; exact absurd h (by decide)
        exact ⟨5, by omega, le_refl _, fun h5 => hn (by
          have := (bios_u8_code bios _ 0).1 h5; omega)⟩
      · rintro ⟨k, hk1, hk5, hk⟩
        rw [if_neg]
        intro hle
        exact hk ((bios_u8_code bios _ 0).2 (by omega))

/-- C15, on the two small tables and on the c-step header cut before `snr`. -/
theorem header_fields_and_valid_witness :
    ((envy_bios_parse_power_boost uninit_5a bios_boost_small).2.power.boost.hlen,
      (envy_bios_parse_power_boost uninit_5a bios_boost_small).2.power.boost.rlen,
      (envy_bios_parse_power_boost uninit_5a bios_boost_small).2.power.boost.ssz,
      (envy_bios_parse_power_boost uninit_5a bios_boost_small).2.power.boost.snr,
      (envy_bios_parse_power_boost uninit_5a bios_boost_small).2.power.boost.entriesnum) = (6, 4, 6, 2, 1)
    ∧ (envy_bios_parse_power_boost uninit_5a bios_boost_small).2.power.boost.valid = 1
    ∧ ((envy_bios_parse_power_cstep uninit_5a bios_cstep_small).2.power.cstep.hlen,
      (envy_bios_parse_power_cstep uninit_5a bios_cstep_small).2.power.cstep.rlen,
      (envy_bios_parse_power_cstep uninit_5a bios_cstep_small).2.power.cstep.entriesnum,
      (envy_bios_parse_power_cstep uninit_5a bios_cstep_small).2.power.cstep.ssz,
      (envy_bios_parse_power_cstep uninit_5a bios_cstep_small).2.power.cstep.snr) = (6, 4, 1, 5, 2)
    ∧ (envy_bios_parse_power_cstep uninit_5a bios_cstep_cut).2.power.cstep.valid = 0 := by
  have hb := (header_fields_and_valid uninit_5a bios_boost_small).1 (by decide)
  have hc := (header_fields_and_valid uninit_5a bios_cstep_cut).2 (by decide)
  refine ⟨by decide, ?_, by decide, ?_⟩
  · exact hb.2.2.2.2.2.1.2 (fun k hk1 hk5 => by interval_cases k <;> decide)
  · exact hc.2.2.2.2.2.2.2 ⟨5, by decide⟩

/-! ## Record fields and record offsets -/

/-- The boost entry `i` after the decoder, for `i` below `entriesnum`. -/
theorem parse_power_boost_entry (u : indeterminate) (bios : envy_bios)
    (hv : (bios_u8 bios (bios.power.boost.offset + 0x0) bios.power.boost.version).2 = 0x11)
    (i : Nat) (hi : i < (envy_bios_parse_power_boost u bios).2.power.boost.entriesnum) :
    (envy_bios_parse_power_boost u bios).2.power.boost.entries[i]?
      = some (boost_entry u bios (envy_bios_parse_power_boost u bios).2.power.boost i
          (bios.power.boost.entries.getD i default)) := by
  rw [(parse_power_boost_supported u bios hv).2.2, array_for_getElem?_lt _ _ _ _ hi]

/-- The Entries1 record `i` after the decoder, for `i` below `entriesnum`. -/
theorem parse_power_cstep_ent1 (u : indeterminate) (bios : envy_bios)
    (hv : (bios_u8 bios (bios.power.cstep.offset + 0x0) bios.power.cstep.version).2 = 0x10)
    (i : Nat) (hi : i < (envy_bios_parse_power_cstep u bios).2.power.cstep.entriesnum) :
    (envy_bios_parse_power_cstep u bios).2.power.cstep.ent1[i]?
      = some (cstep_entry1 u bios (envy_bios_parse_power_cstep u bios).2.power.cstep i
          (bios.power.cstep.ent1.getD i default)) := by
  rw [(parse_power_cstep_supported u bios hv).2.2.1, array_for_getElem?_lt _ _ _ _ hi]

/-- The Entries2 record `i` after the decoder, for `i` below `snr`. -/
theorem parse_power_cstep_ent2 (u : indeterminate) (bios : envy_bios)
    (hv : (bios_u8 bios (bios.power.cstep.offset + 0x0) bios.power.cstep.version).2 = 0x10)
    (i : Nat) (hi : i < (envy_bios_parse_power_cstep u bios).2.power.cstep.snr) :
    (envy_bios_parse_power_cstep u bios).2.power.cstep.ent2[i]?
      = some (cstep_entry2 bios (envy_bios_parse_power_cstep u bios).2.power.cstep i
          ((malloc (envy_bios_parse_power_cstep u bios).2.power.cstep.snr u.ent2).getD i
            default)) := by
  rw [(parse_power_cstep_supported u bios hv).2.2.2, array_for_getElem?_lt _ _ _ _ hi]

theorem boost_entry_fields (u : indeterminate) (bios : envy_bios) (boost : envy_bios_power_boost)
    (i : Nat)
    (e : envy_bios_power_boost_entry) :
    (boost_entry u bios boost i e).pstate
        = ((bios_u16 bios ((boost_entry u bios boost i e).offset + 0x0) (u.boost_tmp i)).2
            &&& 0x01e0) >>> 5
    ∧ (boost_entry u bios boost i e).min
        = (bios_u16 bios ((boost_entry u bios boost i e).offset + 0x2) e.min).2
    ∧ (boost_entry u bios boost i e).max
        = (bios_u16 bios ((boost_entry u bios boost i e).offset + 0x4) e.max).2 :=
  ⟨rfl, rfl, rfl⟩

theorem cstep_entry1_fields (u : indeterminate) (bios : envy_bios) (cstep : envy_bios_power_cstep)
    (i : Nat)
    (e : envy_bios_power_cstep_entry1) :
    (cstep_entry1 u bios cstep i e).offset = (cstep.offset + cstep.hlen + i * cstep.rlen) % 65536
    ∧ (cstep_entry1 u bios cstep i e).pstate
        = ((bios_u16 bios ((cstep_entry1 u bios cstep i e).offset + 0x0) (u.cstep_tmp i)).2
            &&& 0x01e0) >>> 5
    ∧ (cstep_entry1 u bios cstep i e).index
        = (bios_u8 bios ((cstep_entry1 u bios cstep i e).offset + 0x3) e.index).2 :=
  ⟨rfl, rfl, rfl⟩

theorem cstep_entry2_fields (bios : envy_bios) (cstep : envy_bios_power_cstep) (i : Nat)
    (e : envy_bios_power_cstep_entry2) :
    (cstep_entry2 bios cstep i e).freq
        = (bios_u16 bios ((cstep_entry2 bios cstep i e).offset + 0x0) e.freq).2
    ∧ (cstep_entry2 bios cstep i e).unkn0
        = (bios_u8 bios ((cstep_entry2 bios cstep i e).offset + 0x2) e.unkn0).2
    ∧ (cstep_entry2 bios cstep i e).unkn1
        = (bios_u8 bios ((cstep_entry2 bios cstep i e).offset + 0x3) e.unkn1).2
    ∧ (cstep_entry2 bios cstep i e).voltage
        = (bios_u8 bios ((cstep_entry2 bios cstep i e).offset + 0x4) e.voltage).2 :=
  ⟨rfl, rfl, rfl, rfl⟩

theorem pstate_le (f : Nat) : (f &&& 0x01e0) >>> 5 ≤ 15 := by
  rw [pstate_bits]; omega

/-- C13: in a boost entry and in a c-step Entries1 record the power state is at
most 15 and, when the 16-bit field `f` at +0 of the record lies inside the
image, equals `(f & 0x01e0) >> 5`, which is `(f / 32) % 16`, the bits 5 to 8
of `f` and no other bit; a boost entry's `min` is the 16-bit value at +2 and
its `max` the 16-bit value at +4 of the recorded entry offset, whenever those
lie inside the image. -/
theorem pstate_and_clocks (u : indeterminate) (bios : envy_bios) :
    ((bios_u8 bios (bios.power.boost.offset + 0x0) bios.power.boost.version).2 = 0x11 →
      ∀ i, i < (envy_bios_parse_power_boost u bios).2.power.boost.entriesnum →
        ∃ e, (envy_bios_parse_power_boost u bios).2.power.boost.entries[i]? = some e
          ∧ e.pstate ≤ 15
          ∧ (e.offset + 2 ≤ bios.data.length →
              e.pstate = ((bios.data.getD e.offset 0 % 256
                  + 256 * (bios.data.getD (e.offset + 1) 0 % 256)) &&& 0x01e0) >>> 5
              ∧ e.pstate = ((bios.data.getD e.offset 0 % 256
                  + 256 * (bios.data.getD (e.offset + 1) 0 % 256)) / 32) % 16)
          ∧ (e.offset + 4 ≤ bios.data.length →
              e.min = bios.data.getD (e.offset + 2) 0 % 256
                + 256 * (bios.data.getD (e.offset + 3) 0 % 256))
          ∧ (e.offset + 6 ≤ bios.data.length →
              e.max = bios.data.getD (e.offset + 4) 0 % 256
                + 256 * (bios.data.getD (e.offset + 5) 0 % 256)))
    ∧ ((bios_u8 bios (bios.power.cstep.offset + 0x0) bios.power.cstep.version).2 = 0x10 →
      ∀ i, i < (envy_bios_parse_power_cstep u bios).2.power.cstep.entriesnum →
        ∃ e, (envy_bios_parse_power_cstep u bios).2.power.cstep.ent1[i]? = some e
          ∧ e.pstate ≤ 15
          ∧ (e.offset + 2 ≤ bios.data.length →
              e.pstate = ((bios.data.getD e.offset 0 % 256
                  + 256 * (bios.data.getD (e.offset + 1) 0 % 256)) &&& 0x01e0) >>> 5
              ∧ e.pstate = ((bios.data.getD e.offset 0 % 256
                  + 256 * (bios.data.getD (e.offset + 1) 0 % 256)) / 32) % 16)) := by
  refine ⟨?_, ?_⟩
  · intro hv i hi
    refine ⟨_, parse_power_boost_entry u bios hv i hi, ?_, ?_, ?_, ?_⟩
    · rw [(boost_entry_fields u bios _ i _).1]; exact pstate_le _
    · intro h
      rw [← pstate_bits, (boost_entry_fields u bios _ i _).1, bios_u16_ok bios _ _ (by omega)]
      exact ⟨rfl, rfl⟩
    · intro h
      rw [(boost_entry_fields u bios _ i _).2.1, bios_u16_ok bios _ _ (by omega)]
    · intro h
      rw [(boost_entry_fields u bios _ i _).2.2, bios_u16_ok bios _ _ (by omega)]
  · intro hv i hi
    refine ⟨_, parse_power_cstep_ent1 u bios hv i hi, ?_, ?_⟩
    · rw [(cstep_entry1_fields u bios _ i _).2.1]; exact pstate_le _
    · intro h
      rw [← pstate_bits, (cstep_entry1_fields u bios _ i _).2.1, bios_u16_ok bios _ _ (by omega)]
      exact ⟨rfl, rfl⟩

/-- C13, on the table of the specification's scenario: the packed field `0x00a0`
gives power state 5. -/
theorem pstate_and_clocks_witness :
    (envy_bios_parse_power_boost uninit_5a bios_boost_small).2.power.boost.entries.map
        (fun e => (e.offset, e.pstate, e.min, e.max)) = [(8, 5, 0x10, 0x3201)]
    ∧ (0x00a0 &&& 0x01e0) >>> 5 = 5
    ∧ ∃ e, (envy_bios_parse_power_boost uninit_5a bios_boost_small).2.power.boost.entries[0]? = some e
        ∧ e.pstate ≤ 15 := by
  obtain ⟨e, he, hle, -⟩ := (pstate_and_clocks uninit_5a bios_boost_small).1 (by decide) 0 (by decide)
  exact ⟨by decide, by decide, e, he, hle⟩

/-- C14 (amended): for a c-step table of version `0x10`, Entries1 record `i`
records the offset `base + hlen + i * rlen` truncated to 16 bits (the exact
sum when it is below 65536), its power state comes from the 16-bit field at
+0 and its index from the byte at +3 of the recorded offset; Entries2 record
`i` records `base + hlen + entriesnum * rlen + i * ssz` truncated to 16 bits,
with the frequency at +0 (16 bits), the unknown bytes at +2 and +3 and the
voltage at +4; each field whenever its bytes lie inside the image. -/
theorem cstep_records_mod (u : indeterminate) (bios : envy_bios)
    (hv : (bios_u8 bios (bios.power.cstep.offset + 0x0) bios.power.cstep.version).2 = 0x10) :
    let r := (envy_bios_parse_power_cstep u bios).2.power.cstep
    (∀ i, i < r.entriesnum → ∃ e, r.ent1[i]? = some e
        ∧ e.offset = (r.offset + r.hlen + i * r.rlen) % 65536
        ∧ (r.offset + r.hlen + i * r.rlen < 65536 → e.offset = r.offset + r.hlen + i * r.rlen)
        ∧ (e.offset + 2 ≤ bios.data.length →
            e.pstate = ((bios.data.getD e.offset 0 % 256
              + 256 * (bios.data.getD (e.offset + 1) 0 % 256)) &&& 0x01e0) >>> 5)
        ∧ (e.offset + 4 ≤ bios.data.length → e.index = bios.data.getD (e.offset + 3) 0 % 256))
    ∧ (∀ i, i < r.snr → ∃ e, r.ent2[i]? = some e
        ∧ e.offset = (r.offset + r.hlen + r.entriesnum * r.rlen + i * r.ssz) % 65536
        ∧ (r.offset + r.hlen + r.entriesnum * r.rlen + i * r.ssz < 65536 →
            e.offset = r.offset + r.hlen + r.entriesnum * r.rlen + i * r.ssz)
        ∧ (e.offset + 2 ≤ bios.data.length →
            e.freq = bios.data.getD e.offset 0 % 256
              + 256 * (bios.data.getD (e.offset + 1) 0 % 256))
        ∧ (e.offset + 3 ≤ bios.data.length → e.unkn0 = bios.data.getD (e.offset + 2) 0 % 256)
        ∧ (e.offset + 4 ≤ bios.data.length → e.unkn1 = bios.data.getD (e.offset + 3) 0 % 256)
        ∧ (e.offset + 5 ≤ bios.data.length →
            e.voltage = bios.data.getD (e.offset + 4) 0 % 256)) := by
  intro r
  have hr : r = (envy_bios_parse_power_cstep u bios).2.power.cstep := rfl
  clear_value r
  subst hr
  refine ⟨?_, ?_⟩
  · intro i hi
    refine ⟨_, parse_power_cstep_ent1 u bios hv i hi, (cstep_entry1_fields u bios _ i _).1,
      ?_, ?_, ?_⟩
    · intro hlt
      rw [(cstep_entry1_fields u bios _ i _).1, Nat.mod_eq_of_lt hlt]
    · intro h
      rw [(cstep_entry1_fields u bios _ i _).2.1, bios_u16_ok bios _ _ (by omega)]
      rfl
    · intro h
      rw [(cstep_entry1_fields u bios _ i _).2.2, bios_u8_ok bios _ _ (by omega)]
  · intro i hi
    refine ⟨_, parse_power_cstep_ent2 u bios hv i hi, (cstep_entry2_valid bios _ i _).2,
      ?_, ?_, ?_, ?_, ?_⟩
    · intro hlt
      rw [(cstep_entry2_valid bios _ i _).2, Nat.mod_eq_of_lt hlt]
    · intro h
      rw [(cstep_entry2_fields bios _ i _).1, bios_u16_ok bios _ _ (by omega)]
      rfl
    · intro h
      rw [(cstep_entry2_fields bios _ i _).2.1, bios_u8_ok bios _ _ (by omega)]
    · intro h
      rw [(cstep_entry2_fields bios _ i _).2.2.1, bios_u8_ok bios _ _ (by omega)]
    · intro h
      rw [(cstep_entry2_fields bios _ i _).2.2.2, bios_u8_ok bios _ _ (by omega)]

/-- C14 (amended), on the small table: one Entries1 record at 6 and two
Entries2 records at 10 and 15. -/
theorem cstep_records_mod_witness :
    (envy_bios_parse_power_cstep uninit_5a bios_cstep_small).2.power.cstep.ent1
        = [⟨6, 5, 7⟩]
    ∧ (envy_bios_parse_power_cstep uninit_5a bios_cstep_small).2.power.cstep.ent2
        = [⟨10, 0, 1, 2, 3, 0⟩, ⟨15, 300, 4, 5, 6, 1⟩]
    ∧ ∃ e, (envy_bios_parse_power_cstep uninit_5a bios_cstep_small).2.power.cstep.ent2[1]? = some e
        ∧ e.offset = 15 := by
  obtain ⟨e, he, -, hoff, -⟩ := (cstep_records_mod uninit_5a bios_cstep_small (by decide)).2 1 (by decide)
  exact ⟨by decide, by decide, e, he, by rw [hoff (by decide)]; decide⟩

set_option maxRecDepth 1000000 in
/-- C14, as stated, fails: for the table at offset 511 the Entries2 record 254 lies
at 65536 and is recorded at offset 0. -/
theorem cstep_offset_wraps :
    (envy_bios_parse_power_cstep uninit_5a bios_cstep_far).2.power.cstep.version = 0x10
    ∧ (envy_bios_parse_power_cstep uninit_5a bios_cstep_far).2.power.cstep.hlen = 255
    ∧ (envy_bios_parse_power_cstep uninit_5a bios_cstep_far).2.power.cstep.rlen = 0
    ∧ (envy_bios_parse_power_cstep uninit_5a bios_cstep_far).2.power.cstep.entriesnum = 0
    ∧ (envy_bios_parse_power_cstep uninit_5a bios_cstep_far).2.power.cstep.ssz = 255
    ∧ (envy_bios_parse_power_cstep uninit_5a bios_cstep_far).2.power.cstep.snr = 255
    ∧ (envy_bios_parse_power_cstep uninit_5a bios_cstep_far).2.power.cstep.ent2[254]?.map
        (fun e => e.offset) = some 0
    ∧ 511 + 255 + 0 * 0 + 254 * 255 = 65536 := by
  decide

theorem mod_mono_of_lt (a b : Nat) (hab : a ≤ b) (hb : b < 65536) :
    a % 65536 ≤ b % 65536 := by
  rw [Nat.mod_eq_of_lt hb, Nat.mod_eq_of_lt (by omega)]; exact hab

/-- C16 (amended): recorded offsets increase with the record index as long as
they do not wrap around 16 bits: for `i ≤ k`, when the exact offset of record
`k` (the sum before truncation) is below 65536, record `i` has a recorded
offset at most that of record `k`; this for boost entries, for the subentries
of each boost entry, for c-step Entries1 and for c-step Entries2. -/
theorem record_offsets_monotone (u : indeterminate) (bios : envy_bios) :
    ((bios_u8 bios (bios.power.boost.offset + 0x0) bios.power.boost.version).2 = 0x11 →
      (∀ i k ei ek, i ≤ k → k < (envy_bios_parse_power_boost u bios).2.power.boost.entriesnum →
        (envy_bios_parse_power_boost u bios).2.power.boost.entries[i]? = some ei →
        (envy_bios_parse_power_boost u bios).2.power.boost.entries[k]? = some ek →
        (envy_bios_parse_power_boost u bios).2.power.boost.offset
          + (envy_bios_parse_power_boost u bios).2.power.boost.hlen
          + k * ((envy_bios_parse_power_boost u bios).2.power.boost.rlen
            + (envy_bios_parse_power_boost u bios).2.power.boost.snr
              * (envy_bios_parse_power_boost u bios).2.power.boost.ssz) < 65536 →
        ei.offset ≤ ek.offset)
      ∧ (∀ i e j l sj sl, i < (envy_bios_parse_power_boost u bios).2.power.boost.entriesnum →
        (envy_bios_parse_power_boost u bios).2.power.boost.entries[i]? = some e →
        j ≤ l → l < (envy_bios_parse_power_boost u bios).2.power.boost.snr →
        e.entries[j]? = some sj → e.entries[l]? = some sl →
        e.offset + (envy_bios_parse_power_boost u bios).2.power.boost.rlen
          + l * (envy_bios_parse_power_boost u bios).2.power.boost.ssz < 65536 →
        sj.offset ≤ sl.offset))
    ∧ ((bios_u8 bios (bios.power.cstep.offset + 0x0) bios.power.cstep.version).2 = 0x10 →
      (∀ i k ei ek, i ≤ k → k < (envy_bios_parse_power_cstep u bios).2.power.cstep.entriesnum →
        (envy_bios_parse_power_cstep u bios).2.power.cstep.ent1[i]? = some ei →
        (envy_bios_parse_power_cstep u bios).2.power.cstep.ent1[k]? = some ek →
        (envy_bios_parse_power_cstep u bios).2.power.cstep.offset
          + (envy_bios_parse_power_cstep u bios).2.power.cstep.hlen
          + k * (envy_bios_parse_power_cstep u bios).2.power.cstep.rlen < 65536 →
        ei.offset ≤ ek.offset)
      ∧ (∀ i k ei ek, i ≤ k → k < (envy_bios_parse_power_cstep u bios).2.power.cstep.snr →
        (envy_bios_parse_power_cstep u bios).2.power.cstep.ent2[i]? = some ei →
        (envy_bios_parse_power_cstep u bios).2.power.cstep.ent2[k]? = some ek →
        (envy_bios_parse_power_cstep u bios).2.power.cstep.offset
          + (envy_bios_parse_power_cstep u bios).2.power.cstep.hlen
          + (envy_bios_parse_power_cstep u bios).2.power.cstep.entriesnum
            * (envy_bios_parse_power_cstep u bios).2.power.cstep.rlen
          + k * (envy_bios_parse_power_cstep u bios).2.power.cstep.ssz < 65536 →
        ei.offset ≤ ek.offset)) := by
  refine ⟨?_, ?_⟩
  · intro hv
    refine ⟨?_, ?_⟩
    · intro i k ei ek hik hk hi_eq hk_eq hlt
      rw [parse_power_boost_entry u bios hv i (by omega)] at hi_eq
      rw [parse_power_boost_entry u bios hv k hk] at hk_eq
      cases hi_eq; cases hk_eq
      rw [(boost_entry_offset u bios _ i _).1, (boost_entry_offset u bios _ k _).1]
      refine mod_mono_of_lt _ _ ?_ hlt
      have := Nat.mul_le_mul_right ((envy_bios_parse_power_boost u bios).2.power.boost.rlen
        + (envy_bios_parse_power_boost u bios).2.power.boost.snr
          * (envy_bios_parse_power_boost u bios).2.power.boost.ssz) hik
      omega
    · intro i e j l sj sl hi he hjl hl hj_eq hl_eq hlt
      rw [parse_power_boost_entry u bios hv i hi] at he
      cases he
      rw [(boost_entry_offset u bios _ i _).2, array_for_getElem?_lt _ _ _ _ (by omega)] at hj_eq
      rw [(boost_entry_offset u bios _ i _).2, array_for_getElem?_lt _ _ _ _ hl] at hl_eq
      cases hj_eq; cases hl_eq
      rw [boost_subentry_offset, boost_subentry_offset]
      refine mod_mono_of_lt _ _ ?_ hlt
      have := Nat.mul_le_mul_right (envy_bios_parse_power_boost u bios).2.power.boost.ssz hjl
      omega
  · intro hv
    refine ⟨?_, ?_⟩
    · intro i k ei ek hik hk hi_eq hk_eq hlt
      rw [parse_power_cstep_ent1 u bios hv i (by omega)] at hi_eq
      rw [parse_power_cstep_ent1 u bios hv k hk] at hk_eq
      cases hi_eq; cases hk_eq
      rw [(cstep_entry1_fields u bios _ i _).1, (cstep_entry1_fields u bios _ k _).1]
      refine mod_mono_of_lt _ _ ?_ hlt
      have := Nat.mul_le_mul_right (envy_bios_parse_power_cstep u bios).2.power.cstep.rlen hik
      omega
    · intro i k ei ek hik hk hi_eq hk_eq hlt
      rw [parse_power_cstep_ent2 u bios hv i (by omega)] at hi_eq
      rw [parse_power_cstep_ent2 u bios hv k hk] at hk_eq
      cases hi_eq; cases hk_eq
      rw [(cstep_entry2_valid bios _ i _).2, (cstep_entry2_valid bios _ k _).2]
      refine mod_mono_of_lt _ _ ?_ hlt
      have := Nat.mul_le_mul_right (envy_bios_parse_power_cstep u bios).2.power.cstep.ssz hik
      omega

/-- C16 (amended), on the two Entries2 records of the small c-step table. -/
theorem record_offsets_monotone_witness :
    (envy_bios_parse_power_cstep uninit_5a bios_cstep_small).2.power.cstep.ent2.map
        (fun e => e.offset) = [10, 15]
    ∧ ∀ ei ek, (envy_bios_parse_power_cstep uninit_5a bios_cstep_small).2.power.cstep.ent2[0]? = some ei →
        (envy_bios_parse_power_cstep uninit_5a bios_cstep_small).2.power.cstep.ent2[1]? = some ek →
        ei.offset ≤ ek.offset := by
  refine ⟨by decide, ?_⟩
  intro ei ek h0 h1
  exact ((record_offsets_monotone uninit_5a bios_cstep_small).2 (by decide)).2 0 1 ei ek (by decide)
    (by decide) h0 h1 (by decide)

set_option maxRecDepth 1000000 in
/-- C16, as stated, fails: in the c-step table at offset 511 the Entries2 records
253 and 254 have recorded offsets 65281 and 0; and the two boost entries of
the table at offset 1 have recorded offsets 256 and 0. -/
theorem record_offsets_not_monotone :
    (envy_bios_parse_power_cstep uninit_5a bios_cstep_far).2.power.cstep.snr = 255
    ∧ (envy_bios_parse_power_cstep uninit_5a bios_cstep_far).2.power.cstep.ent2[253]?.map
        (fun e => e.offset) = some 65281
    ∧ (envy_bios_parse_power_cstep uninit_5a bios_cstep_far).2.power.cstep.ent2[254]?.map
        (fun e => e.offset) = some 0
    ∧ (envy_bios_parse_power_boost uninit_5a bios_boost_wrap).2.power.boost.entries.map
        (fun e => e.offset) = [256, 0]
    ∧ ¬ ((65281 : Nat) ≤ 0) ∧ ¬ ((256 : Nat) ≤ 0) := by
  decide

/-! ## Sibling tables -/

theorem bios_u8_data (bios : envy_bios) (power : envy_bios_power) :
    bios_u8 { data := bios.data, power := power } = bios_u8 bios := rfl

theorem bios_u16_data (bios : envy_bios) (power : envy_bios_power) :
    bios_u16 { data := bios.data, power := power } = bios_u16 bios := rfl

theorem cstep_entry1_data (u : indeterminate) (bios : envy_bios) (power : envy_bios_power) :
    cstep_entry1 u { data := bios.data, power := power } = cstep_entry1 u bios := rfl

theorem cstep_entry2_data (bios : envy_bios) (power : envy_bios_power) :
    cstep_entry2 { data := bios.data, power := power } = cstep_entry2 bios := rfl

/-- The c-step decoder looks at the image and at the c-step table only. -/
theorem parse_power_cstep_local (u : indeterminate) (bios : envy_bios) (power : envy_bios_power)
    (hc : power.cstep = bios.power.cstep) :
    (envy_bios_parse_power_cstep u { data := bios.data, power := power }).1
        = (envy_bios_parse_power_cstep u bios).1
    ∧ (envy_bios_parse_power_cstep u { data := bios.data, power := power }).2.power.cstep
        = (envy_bios_parse_power_cstep u bios).2.power.cstep := by
  unfold envy_bios_parse_power_cstep
  dsimp only
  rw [hc, bios_u8_data, cstep_entry1_data, cstep_entry2_data]
  split <;> exact ⟨rfl, rfl⟩

/-- C17: `envy_bios_parse_bit_P` returns 0 whatever the two decoders return; the
boost decoder leaves the c-step table, every slot offset and the image as they
were; and the c-step table after the full parse is the one the c-step decoder
alone produces on the same image from the c-step table as it was before the
parse, at the resolved c-step offset. -/
theorem sibling_independence (u : indeterminate) (fuel : Nat) (bios : envy_bios)
    (bit : envy_bios_bit_entry)
    (hfuel : 10 ≤ fuel) :
    ∃ bios', envy_bios_parse_bit_P fuel u bios bit = some (0, bios')
      ∧ (∀ b : envy_bios,
          (envy_bios_parse_power_boost u b).2.power.cstep = b.power.cstep
          ∧ (∀ q : P_ptr, q.get (envy_bios_parse_power_boost u b).2.power = q.get b.power)
          ∧ (envy_bios_parse_power_boost u b).2.data = b.data)
      ∧ (∀ power : envy_bios_power,
          power.cstep = { bios.power.cstep with offset := bios'.power.cstep.offset } →
          (envy_bios_parse_power_cstep u { data := bios.data, power := power }).2.power.cstep
            = bios'.power.cstep) := by
  obtain ⟨power', hw, hclr⟩ := parse_bit_P_walk_total bios bit fuel
    { bios.power with bit := some bit } hfuel rfl
  refine ⟨_, parse_bit_P_of_walk u fuel bios bit power' hw, ?_, ?_⟩
  · intro b
    refine ⟨?_, parse_power_boost_get u b, (parse_power_boost_frame u b).1⟩
    rw [(parse_power_boost_frame u b).2.1]
  · intro power hp
    have hoff : (envy_bios_parse_power_cstep u
        (envy_bios_parse_power_boost u { bios with power := power' }).2).2.power.cstep.offset
        = power'.cstep.offset :=
      (parse_power_cstep_get u _ .cstep).trans (parse_power_boost_get u _ .cstep)
    have hX : (envy_bios_parse_power_boost u { bios with power := power' }).2.power.cstep
        = power'.cstep := by
      rw [(parse_power_boost_frame u _).2.1]
    have hd : (envy_bios_parse_power_boost u { bios with power := power' }).2.data = bios.data :=
      (parse_power_boost_frame u _).1
    rw [hoff] at hp
    have hpc : power.cstep
        = (envy_bios_parse_power_boost u { bios with power := power' }).2.power.cstep :=
      (hp.trans (clear_offsets_cstep power' _ hclr).symm).trans hX.symm
    have h := (parse_power_cstep_local u
      (envy_bios_parse_power_boost u { bios with power := power' }).2 power hpc).2
    rw [hd] at h
    exact h

/-- C17, on an image whose BOOST table has an unsupported version: the boost
decoder returns -22, and the parse still returns 0 with the c-step table the
c-step decoder alone produces (one Entries2 record). -/
theorem sibling_independence_witness :
    (envy_bios_parse_power_boost uninit_5a bios_sig10).1 = -22
    ∧ ∃ bios', envy_bios_parse_bit_P 10 uninit_5a bios_sig10 bit_v1_tail = some (0, bios')
        ∧ bios'.power.cstep = (envy_bios_parse_power_cstep uninit_5a bios_sig10).2.power.cstep
        ∧ bios'.power.cstep.ent2 = [⟨6, 300, 7, 8, 9, 1⟩] := by
  refine ⟨by decide, ?_⟩
  obtain ⟨bios', hp, -, hc⟩ := sibling_independence uninit_5a 10 bios_sig10 bit_v1_tail (le_refl _)
  have hoff : (envy_bios_parse_bit_P 10 uninit_5a bios_sig10 bit_v1_tail).map
      (fun r => r.2.power.cstep.offset) = some 0 := by decide
  rw [hp] at hoff
  have hoff' : bios'.power.cstep.offset = 0 := by simpa using hoff
  have h := hc bios_sig10.power (by rw [hoff']; rfl)
  refine ⟨bios', hp, h.symm, ?_⟩
  rw [← h]
  decide

/-! ## Running the parse twice -/

theorem bios_u16_code_dest (bios : envy_bios) (offs res res' : Nat) :
    (bios_u16 bios offs res).1 = (bios_u16 bios offs res').1 := by
  unfold bios_u16; split <;> rfl

theorem parse_at_tbls_frame (bios : envy_bios) (P P' : envy_bios_power)
    (bit : envy_bios_bit_entry) (tbls : List P_known_tables) (idx offset : Int)
    (name : Option String) :
    (parse_at_tbls bios P bit tbls idx offset name).ret
        = (parse_at_tbls bios P' bit tbls idx offset name).ret
    ∧ (parse_at_tbls bios P bit tbls idx offset name).name
        = (parse_at_tbls bios P' bit tbls idx offset name).name
    ∧ (parse_at_tbls bios P bit tbls idx offset name).power.bit = P.bit := by
  unfold parse_at_tbls
  dsimp only
  split_ifs <;>
    first
    | exact ⟨rfl, rfl, rfl⟩
    | (generalize tbls.get ⟨_, _⟩ = t
       by_cases hsz : t.offset + 2 > bit.t_len
       · rw [if_pos hsz, if_pos hsz]
         exact ⟨rfl, rfl, rfl⟩
       · rw [if_neg hsz, if_neg hsz]
         exact ⟨bios_u16_code_dest _ _ _ _, rfl, P_ptr.set_bit _ _ _⟩)

/-- The code and the name that `parse_at` gives depend on the power model
through `power->bit` only, and `parse_at` leaves `power->bit` as it is. -/
theorem parse_at_frame (bios : envy_bios) (P P' : envy_bios_power) (bit : envy_bios_bit_entry)
    (idx offset : Int) (name : Option String) (hP : P.bit = some bit) (hP' : P'.bit = some bit) :
    ∃ r r', parse_at bios P idx offset name = some r
      ∧ parse_at bios P' idx offset name = some r'
      ∧ r.ret = r'.ret ∧ r.name = r'.name ∧ r.power.bit = some bit := by
  unfold parse_at
  rw [hP, hP']
  dsimp only
  split_ifs
  · obtain ⟨h1, h2, h3⟩ := parse_at_tbls_frame bios P P' bit p1_tbls idx offset name
    exact ⟨_, _, rfl, rfl, h1, h2, h3.trans hP⟩
  · obtain ⟨h1, h2, h3⟩ := parse_at_tbls_frame bios P P' bit p2_tbls idx offset name
    exact ⟨_, _, rfl, rfl, h1, h2, h3.trans hP⟩
  · exact ⟨_, _, rfl, rfl, rfl, rfl, hP⟩

theorem bios_u16_value_dest (bios : envy_bios) (offs res res' : Nat)
    (h : (bios_u16 bios offs res).1 = 0) :
    (bios_u16 bios offs res).2 = (bios_u16 bios offs res').2 := by
  unfold bios_u16 at h ⊢
  split
  · rfl
  · next hn => rw [if_neg hn] at h; simp [EFAULT] at h

/-- One turn of the loop of the report, at position `i`. -/
theorem print_bit_P_body_spec (bios : envy_bios) (bit : envy_bios_bit_entry)
    (P0 : envy_bios_power) (hP0 : P0.bit = some bit) (st : print_bit_P_state)
    (hst : st.power.bit = some bit) (i : Nat) :
    (print_bit_P_body bios bit st i).power.bit = some bit
    ∧ (print_bit_P_body bios bit st i).resolved = st.resolved ++ [i].filter (fun i =>
        decide ((bios_u16 bios (bit.t_offset + i) 0).1 = 0
          ∧ (bios_u16 bios (bit.t_offset + i) 0).2 ≠ 0))
    ∧ (print_bit_P_body bios bit st i).out = st.out ++ ([i].filter (fun i =>
        decide ((bios_u16 bios (bit.t_offset + i) 0).1 = 0
          ∧ (bios_u16 bios (bit.t_offset + i) 0).2 ≠ 0))).map (fun i =>
        P_line.slot i (bios_u16 bios (bit.t_offset + i) 0).2
          (((parse_at bios P0 (-1) (i : Int) (some "UNKNOWN")).bind
            (fun r => r.name)).getD "UNKNOWN")) := by
  obtain ⟨r, r', hr, hr', -, hname, hrbit⟩ :=
    parse_at_frame bios st.power P0 bit (-1) (i : Int) (some "UNKNOWN") hst hP0
  unfold print_bit_P_body
  dsimp only
  by_cases hc : (bios_u16 bios (bit.t_offset + i) st.addr).1 = 0
      ∧ (bios_u16 bios (bit.t_offset + i) st.addr).2 ≠ 0
  · have hc0 : (bios_u16 bios (bit.t_offset + i) 0).1 = 0
        ∧ (bios_u16 bios (bit.t_offset + i) 0).2 ≠ 0 := by
      rw [bios_u16_code_dest bios _ 0 st.addr, ← bios_u16_value_dest bios _ st.addr 0 hc.1]
      exact hc
    rw [if_pos hc, hr]
    simp only [List.filter_cons, hc0, and_self, decide_True, if_true, List.filter_nil,
      List.map_cons, List.map_nil, hr', Option.some_bind, ne_eq, not_false_eq_true]
    exact ⟨hrbit, trivial, by rw [bios_u16_value_dest bios _ st.addr 0 hc.1, hname]⟩
  · have hc0 : ¬ ((bios_u16 bios (bit.t_offset + i) 0).1 = 0
        ∧ (bios_u16 bios (bit.t_offset + i) 0).2 ≠ 0) := by
      intro h0
      apply hc
      rw [bios_u16_code_dest bios _ st.addr 0, ← bios_u16_value_dest bios _ 0 st.addr h0.1]
      exact h0
    rw [if_neg hc]
    simp [List.filter_cons, hc0, hst]

/-- The loop of the report over the first `m` positions. -/
theorem print_bit_P_loop_spec (bios : envy_bios) (bit : envy_bios_bit_entry)
    (P0 : envy_bios_power) (hP0 : P0.bit = some bit) (st0 : print_bit_P_state)
    (hst0 : st0.power.bit = some bit) (m : Nat) :
    ((List.range m).foldl (fun st n => print_bit_P_body bios bit st (2 * n)) st0).power.bit
        = some bit
    ∧ ((List.range m).foldl (fun st n => print_bit_P_body bios bit st (2 * n)) st0).resolved
        = st0.resolved ++ ((List.range m).map (fun n => 2 * n)).filter (fun i =>
          decide ((bios_u16 bios (bit.t_offset + i) 0).1 = 0
            ∧ (bios_u16 bios (bit.t_offset + i) 0).2 ≠ 0))
    ∧ ((List.range m).foldl (fun st n => print_bit_P_body bios bit st (2 * n)) st0).out
        = st0.out ++ (((List.range m).map (fun n => 2 * n)).filter (fun i =>
          decide ((bios_u16 bios (bit.t_offset + i) 0).1 = 0
            ∧ (bios_u16 bios (bit.t_offset + i) 0).2 ≠ 0))).map (fun i =>
          P_line.slot i (bios_u16 bios (bit.t_offset + i) 0).2
            (((parse_at bios P0 (-1) (i : Int) (some "UNKNOWN")).bind
              (fun r => r.name)).getD "UNKNOWN")) := by
  induction m with
  | zero => simp [hst0]
  | succ m ih =>
    obtain ⟨ih1, ih2, ih3⟩ := ih
    rw [List.range_succ, List.foldl_append, List.foldl_cons, List.foldl_nil]
    obtain ⟨h1, h2, h3⟩ := print_bit_P_body_spec bios bit P0 hP0 _ ih1 (2 * m)
    refine ⟨h1, ?_, ?_⟩
    · rw [h2, ih2, List.map_append, List.filter_append, List.append_assoc]
      rfl
    · rw [h3, ih3, List.map_append, List.filter_append, List.map_append, List.append_assoc]
      rfl

theorem report_positions (t_len : Nat) :
    ((List.range ((t_len + 1) / 2)).map (fun n => 2 * n)).Pairwise (fun a b => a < b)
    ∧ ∀ i, i ∈ (List.range ((t_len + 1) / 2)).map (fun n => 2 * n) ↔ i % 2 = 0 ∧ i < t_len := by
  refine ⟨?_, ?_⟩
  · rw [List.pairwise_map]
    exact (List.pairwise_lt_range _).imp (fun h => by omega)
  · intro i
    simp only [List.mem_map, List.mem_range]
    constructor
    · rintro ⟨n, hn, rfl⟩
      omega
    · rintro ⟨h1, h2⟩
      exact ⟨i / 2, by omega, by omega⟩

/-- The name `parse_at` leaves for a byte offset, by its returned code. -/
theorem parse_at_offset_name (bios : envy_bios) (power : envy_bios_power)
    (bit : envy_bios_bit_entry) (hbit : power.bit = some bit) (i : Nat) (r : parse_at_result)
    (hr : parse_at bios power (-1) (i : Int) (some "UNKNOWN") = some r) :
    (r.ret = 0 → ∃ tbls s, ((bit.version = 1 ∧ tbls = p1_tbls)
        ∨ (bit.version = 2 ∧ tbls = p2_tbls)) ∧ s ∈ tbls ∧ s.offset = i
        ∧ s.offset + 2 ≤ bit.t_len ∧ r.name = some s.name)
    ∧ (r.ret = -ENOENT → r.name = some "UNKNOWN") := by
  have key : ∀ tbls : List P_known_tables,
      ((bit.version = 1 ∧ tbls = p1_tbls) ∨ (bit.version = 2 ∧ tbls = p2_tbls)) →
      (r.ret = 0 → ∃ tbls s, ((bit.version = 1 ∧ tbls = p1_tbls)
        ∨ (bit.version = 2 ∧ tbls = p2_tbls)) ∧ s ∈ tbls ∧ s.offset = i
        ∧ s.offset + 2 ≤ bit.t_len ∧ r.name = some s.name)
      ∧ (r.ret = -ENOENT → r.name = some "UNKNOWN") := by
    intro tbls hver
    by_cases hm : ∃ s ∈ tbls, s.offset = i
    · obtain ⟨s, hs, rfl⟩ := hm
      obtain ⟨k, hk⟩ := List.getElem?_of_mem hs
      rw [parse_at_select bios power bit tbls k s (-1) (s.offset : Int) (some "UNKNOWN") hbit
        hver hk (Or.inr ⟨rfl, rfl⟩)] at hr
      by_cases hlen : s.offset + 2 > bit.t_len
      · rw [if_pos hlen] at hr
        cases hr
        exact ⟨fun h => absurd h (by simp [ENOENT]), fun _ => rfl⟩
      · rw [if_neg hlen] at hr
        cases hr
        refine ⟨fun _ => ⟨tbls, s, hver, hs, rfl, by omega, rfl⟩, ?_⟩
        intro h
        exfalso
        revert h
        show (bios_u16 bios (bit.t_offset + s.offset) (s.ptr.get power)).1 ≠ -ENOENT
        unfold bios_u16
        split <;> simp [ENOENT, EFAULT]
    · have hno : ∀ s ∈ tbls, (s.offset : Int) ≠ (i : Int) := by
        intro s hs h
        exact hm ⟨s, hs, by exact_mod_cast h⟩
      rw [parse_at_of_bit bios power bit tbls (-1) (i : Int) (some "UNKNOWN") hbit hver] at hr
      unfold parse_at_tbls at hr
      have h1 : ¬ ((-1 : Int) ≠ -1 ∧ (i : Int) ≠ -1) := by omega
      have h2 : (i : Int) > -1 := by omega
      have h3 : ((parse_at_scan tbls (i : Int) : Nat) : Int) < 0
          ∨ ((parse_at_scan tbls (i : Int) : Nat) : Int) ≥ (tbls.length : Int) := by
        rw [parse_at_scan_no_match tbls (i : Int) hno]; omega
      simp only [h1, h2, if_false, if_true, h3, dite_true] at hr
      cases hr
      exact ⟨fun h => absurd h (by simp [ENOENT]), fun _ => rfl⟩
  by_cases h1 : bit.version = 1
  · exact key p1_tbls (Or.inl ⟨h1, rfl⟩)
  · by_cases h2 : bit.version = 2
    · exact key p2_tbls (Or.inr ⟨h2, rfl⟩)
    · simp only [parse_at, hbit, h1, h2, if_false, Option.some.injEq] at hr
      cases hr
      exact ⟨fun h => absurd h (by simp [EINVAL]), fun h => absurd h (by simp [EINVAL, ENOENT])⟩

/-- C19: when `power->bit` is set and the mask selects the report, the loop of
`envy_bios_print_bit_P` runs over the even positions below the directory
length, in increasing order and to the end; the positions handed to `parse_at`
are those whose 16-bit read at `t_offset + i` returns 0 with a non-zero value,
and exactly these get a line, which shows the position, the value read and the
name `parse_at` leaves; that name is the name of the slot at offset `i` when
`parse_at` returns 0, and "UNKNOWN" when it returns `-ENOENT`. -/
theorem print_bit_P_report (ENVY_BIOS_PRINT_PERF mask : Nat) (bios : envy_bios)
    (bit : envy_bios_bit_entry) (hbit : bios.power.bit = some bit)
    (hmask : mask &&& ENVY_BIOS_PRINT_PERF ≠ 0) :
    ((List.range ((bit.t_len + 1) / 2)).map (fun n => 2 * n)).Pairwise (fun a b => a < b)
    ∧ (∀ i, i ∈ (List.range ((bit.t_len + 1) / 2)).map (fun n => 2 * n)
        ↔ i % 2 = 0 ∧ i < bit.t_len)
    ∧ (envy_bios_print_bit_P ENVY_BIOS_PRINT_PERF bios mask).resolved
        = ((List.range ((bit.t_len + 1) / 2)).map (fun n => 2 * n)).filter (fun i =>
          decide ((bios_u16 bios (bit.t_offset + i) 0).1 = 0
            ∧ (bios_u16 bios (bit.t_offset + i) 0).2 ≠ 0))
    ∧ (envy_bios_print_bit_P ENVY_BIOS_PRINT_PERF bios mask).out
        = P_line.header bit.offset bit.version
          :: (envy_bios_print_bit_P ENVY_BIOS_PRINT_PERF bios mask).resolved.map (fun i =>
            P_line.slot i (bios_u16 bios (bit.t_offset + i) 0).2
              (((parse_at bios bios.power (-1) (i : Int) (some "UNKNOWN")).bind
                (fun r => r.name)).getD "UNKNOWN"))
          ++ [P_line.blank]
    ∧ (∀ (i : Nat) (r : parse_at_result),
        parse_at bios bios.power (-1) (i : Int) (some "UNKNOWN") = some r →
        (r.ret = 0 → ∃ tbls s, ((bit.version = 1 ∧ tbls = p1_tbls)
          ∨ (bit.version = 2 ∧ tbls = p2_tbls)) ∧ s ∈ tbls ∧ s.offset = i
          ∧ s.offset + 2 ≤ bit.t_len ∧ r.name = some s.name)
        ∧ (r.ret = -ENOENT → r.name = some "UNKNOWN")) := by
  obtain ⟨hp1, hp2⟩ := report_positions bit.t_len
  obtain ⟨-, hres, hout⟩ := print_bit_P_loop_spec bios bit bios.power hbit
    ⟨bios.power, 0, [P_line.header bit.offset bit.version], []⟩ hbit ((bit.t_len + 1) / 2)
  have hres' : (envy_bios_print_bit_P ENVY_BIOS_PRINT_PERF bios mask).resolved
      = ((List.range ((bit.t_len + 1) / 2)).map (fun n => 2 * n)).filter (fun i =>
        decide ((bios_u16 bios (bit.t_offset + i) 0).1 = 0
          ∧ (bios_u16 bios (bit.t_offset + i) 0).2 ≠ 0)) := by
    simp only [envy_bios_print_bit_P, hbit, hmask, if_false]
    rw [hres]
    rfl
  refine ⟨hp1, hp2, hres', ?_, fun i r hr => parse_at_offset_name bios bios.power bit hbit i r hr⟩
  rw [hres']
  simp only [envy_bios_print_bit_P, hbit, hmask, if_false]
  rw [hout]
  rfl

/-- C19, on a seven-byte version 1 directory holding `0x0120`, `0x0000`, `0x0230`,
`0x0340`: position 2 is skipped, positions 0 and 4 name their slots and
position 6 is reported as "UNKNOWN". -/
theorem print_bit_P_report_witness :
    (envy_bios_print_bit_P 1 bios_report 1).resolved = [0, 4, 6]
    ∧ (envy_bios_print_bit_P 1 bios_report 1).out
        = [P_line.header 0x40 1, P_line.slot 0 0x120 "PERFORMANCE",
           P_line.slot 4 0x230 "MEMORY TIMINGS", P_line.slot 6 0x340 "UNKNOWN", P_line.blank] := by
  have h := print_bit_P_report 1 1 bios_report bit_v1_odd rfl (by decide)
  refine ⟨?_, ?_⟩
  · rw [h.2.2.1]; decide
  · rw [h.2.2.2.1, h.2.2.1]; decide

end NvbiosPower
